import Mathlib

/-!
# MixClient: dual-pass transaction execution, trace recording and watch notification

A shallow embedding of `mix/MixClient.cpp`.  The VM, the account state, the block chain
and the log-filter predicate are collaborators that live outside this file; they enter
the embedding as the fields of `Env`, and every theorem holds for every `Env`.

Conventions.
* `std::map` is a key-unique association list (`StdMap`); `h256Set` is a list used only
  through membership.
* A C++ reference parameter `State&` is a `StateRef`: it denotes either the client's own
  `m_state` (as in `submitTransaction`) or a state local to the caller (as in `call` and
  `create`).
* A thrown exception ends the call; the outcome keeps the client and the referenced
  state as they are at the throw.  The collaborators are total functions: an exception
  raised inside a collaborator is outside the embedding.
* The address of a buffer (`&ext.code`, `&ext.data`) is a natural number, and a pointer
  local that starts as `nullptr` is an `Option`.
* Arithmetic on `u256` is taken modulo `2 ^ 256`.  The conversions to `unsigned` that
  wrap on values the program meets (`size() - 1` on an empty vector, the cast of a signed
  block bound, `number() + 1`) are taken modulo `2 ^ 32`; the size of a vector, which
  stays far below `2 ^ 32`, is stored in an `unsigned` as it is.
-/

namespace Mix

/-! ## Basic data -/

abbrev Address := Nat
abbrev h256 := Nat
abbrev Secret := Nat
abbrev bytes := List Nat

/-- Addition of two `u256` words. -/
def u256Add (a b : Nat) : Nat := (a + b) % 2 ^ 256

/-- Conversion of an integer value to the 32-bit type `unsigned`. -/
def toUnsigned (n : Int) : Nat := (n % 2 ^ 32).toNat

/-! ## `std::map` -/

/-- A `std::map`: an association list in which every key occurs once. -/
structure StdMap (K V : Type) where
  entries : List (K × V)
  nodupKeys : (entries.map Prod.fst).Nodup

namespace StdMap

variable {K V : Type}

/-- The empty map. -/
def empty : StdMap K V := ⟨[], List.nodup_nil⟩

/-- Lookup, `m.find(k)`: the value stored under `k`, if any. -/
def find? [DecidableEq K] (m : StdMap K V) (k : K) : Option V :=
  (m.entries.find? (fun e => decide (e.1 = k))).map Prod.snd

/-- Membership count, `m.count(k)`: `1` when `k` is a key and `0` otherwise. -/
def count [DecidableEq K] (m : StdMap K V) (k : K) : Nat :=
  if (m.find? k).isSome then 1 else 0

/-- The loop `for (auto& i: m) i.second = f(i.first, i.second);`. -/
def forEach (m : StdMap K V) (f : K → V → V) : StdMap K V :=
  ⟨m.entries.map (fun e => (e.1, f e.1 e.2)), by
    have h : (m.entries.map (fun e => (e.1, f e.1 e.2))).map Prod.fst = m.entries.map Prod.fst := by
      rw [List.map_map]; rfl
    rw [h]; exact m.nodupKeys⟩

end StdMap

/-! ## Logs, filters and watches -/

/-- Modelled from the spec: a log entry (emitting address, topics, data); its declaration
is in the log library, outside this file. -/
structure LogEntry where
  address : Address
  topics : List h256
  data : bytes
deriving DecidableEq, Repr

/-- Modelled from the spec: a log entry tagged with a block number, as built by
`LocalisedLogEntry(entry, number)`. -/
structure LocalisedLogEntry where
  entry : LogEntry
  number : Nat
deriving DecidableEq, Repr

/-- Modelled from the spec: the sentinel "non-log change" entry, the log entry with
default address, no topics and no data. -/
def SpecialLogEntry : LogEntry := ⟨0, [], []⟩

/-- Modelled from the spec: the sentinel filter id "pending state changed". -/
def PendingChangedFilter : h256 := 0

/-- Modelled from the spec: the sentinel filter id "chain changed". -/
def ChainChangedFilter : h256 := 1

/-- Modelled from the spec: a registered filter, its predicate `filter` (of the
collaborator type `F`) and its accumulating change-list. -/
structure InstalledFilter (F : Type) where
  filter : F
  refs : Nat
  changes : List LocalisedLogEntry
deriving DecidableEq, Repr

/-- Modelled from the spec: a client watch, bound to the filter id `id`, with its own
accumulating change-list. -/
structure ClientWatch where
  id : h256
  changes : List LocalisedLogEntry
deriving DecidableEq, Repr

/-! ## Transactions and execution results -/

/-- Modelled from the spec: a signed transaction.  A creation transaction has no
destination: its `receiveAddress` is the default address.  `secret` is the key it is
signed with, from which the sender is derived. -/
structure Transaction where
  isCreation : Bool
  value : Nat
  gasPrice : Nat
  gas : Nat
  receiveAddress : Address
  data : bytes
  nonce : Nat
  secret : Secret
deriving DecidableEq, Repr

/-- The constructor `Transaction(value, gasPrice, gas, data, nonce, secret)`: a contract
creation. -/
def Transaction.create (value gasPrice gas : Nat) (data : bytes) (nonce : Nat)
    (secret : Secret) : Transaction :=
  ⟨true, value, gasPrice, gas, 0, data, nonce, secret⟩

/-- The constructor `Transaction(value, gasPrice, gas, dest, data, nonce, secret)`: a
message call. -/
def Transaction.call (value gasPrice gas : Nat) (dest : Address) (data : bytes) (nonce : Nat)
    (secret : Secret) : Transaction :=
  ⟨false, value, gasPrice, gas, dest, data, nonce, secret⟩

/-- The failure indicator of the VM layer, with the twelve values the switch in
`executeTransaction` enumerates. -/
inductive TransactionException where
  | None
  | NotEnoughCash
  | OutOfGasBase
  | OutOfGas
  | BlockGasLimitReached
  | OutOfStack
  | StackUnderflow
  | Unknown
  | BadInstruction
  | BadJumpDestination
  | InvalidSignature
  | InvalidNonce
deriving DecidableEq, Repr

/-- Modelled from the spec: the result payload of the VM layer,
`{exceptionKind, gasUsed, gasRefunded, gasForDeposit, returnData}`. -/
structure EthExecutionResult where
  excepted : TransactionException
  gasUsed : Nat
  gasRefunded : Nat
  gasForDeposit : Nat
  output : bytes
deriving DecidableEq, Repr

/-! ## The trace data model -/

/-- A de-duplicated `(owning address, code bytes)` pair. -/
structure MachineCode where
  address : Address
  code : bytes
deriving DecidableEq, Repr

/-- One recorded instruction; the fields are in the order of the initialiser in `onOp`. -/
structure MachineState where
  steps : Nat
  curPC : Nat
  inst : Nat
  newMemSize : Int
  gas : Nat
  stack : List Nat
  memory : bytes
  gasCost : Int
  storage : List (Nat × Nat)
  levels : List Nat
  codeIndex : Nat
  dataIndex : Nat
deriving DecidableEq, Repr

/-- The part of the VM register file that `onOp` reads. -/
structure VM where
  curPC : Nat
  gas : Nat
  stack : List Nat
  memory : bytes
deriving DecidableEq, Repr

/-- The part of the call context that `onOp` reads.  `codePtr` is the address `&ext.code`
and `dataPtr` the address `&ext.data`; `storage` is `ext.state().storage(ext.myAddress)`. -/
structure ExtVM where
  codePtr : Nat
  code : bytes
  dataPtr : Nat
  data : bytes
  depth : Nat
  myAddress : Address
  storage : List (Nat × Nat)
deriving DecidableEq, Repr

/-- The arguments of one invocation of the step observer. -/
structure OnOpCall where
  steps : Nat
  inst : Nat
  newMemSize : Int
  gasCost : Int
  vm : VM
  ext : ExtVM
deriving DecidableEq, Repr

/-- The locals of `executeTransaction` that the observer captures by reference. -/
structure TraceState where
  machineStates : List MachineState
  levels : List Nat
  codes : List MachineCode
  codeIndexes : List (Nat × Nat)
  data : List bytes
  dataIndexes : List (Nat × Nat)
  lastCode : Option Nat
  lastData : Option Nat
  codeIndex : Nat
  dataIndex : Nat
deriving DecidableEq, Repr

/-- The locals as declared before the observer runs: empty tables, null `lastCode` and
`lastData`, both indices zero. -/
def TraceState.init : TraceState :=
  ⟨[], [], [], [], [], [], none, none, 0, 0⟩

/-- The code-table part of `onOp`. -/
def onOpCode (s : TraceState) (ext : ExtVM) : TraceState :=
  if s.lastCode = none ∨ s.lastCode ≠ some ext.codePtr then
    match s.codeIndexes.lookup ext.codePtr with
    | some i => { s with codeIndex := i, lastCode := some ext.codePtr }
    | none =>
      { s with
        codeIndex := s.codes.length
        codes := s.codes ++ [⟨ext.myAddress, ext.code⟩]
        codeIndexes := (ext.codePtr, s.codes.length) :: s.codeIndexes
        lastCode := some ext.codePtr }
  else s

/-- The data-table part of `onOp`. -/
def onOpData (s : TraceState) (ext : ExtVM) : TraceState :=
  if s.lastData = none ∨ s.lastData ≠ some ext.dataPtr then
    match s.dataIndexes.lookup ext.dataPtr with
    | some i => { s with dataIndex := i, lastData := some ext.dataPtr }
    | none =>
      { s with
        dataIndex := s.data.length
        data := s.data ++ [ext.data]
        dataIndexes := (ext.dataPtr, s.data.length) :: s.dataIndexes
        lastData := some ext.dataPtr }
  else s

/-- The `levels` part of `onOp`: push `machineStates.size() - 1` when the depth exceeds
the number of recorded boundaries, otherwise `resize` to the depth. -/
def onOpLevels (s : TraceState) (ext : ExtVM) : TraceState :=
  if s.levels.length < ext.depth then
    { s with levels := s.levels ++ [toUnsigned ((s.machineStates.length : Int) - 1)] }
  else
    { s with levels := s.levels.take ext.depth }

/-- The step observer `onOp`. -/
def onOp (s : TraceState) (o : OnOpCall) : TraceState :=
  let s1 := onOpCode s o.ext
  let s2 := onOpData s1 o.ext
  let s3 := onOpLevels s2 o.ext
  { s3 with
    machineStates := s3.machineStates ++
      [⟨o.steps, o.vm.curPC, o.inst, o.newMemSize, o.vm.gas, o.vm.stack, o.vm.memory,
        o.gasCost, o.ext.storage, s3.levels, s3.codeIndex, s3.dataIndex⟩] }

/-- The trace pass: the observer applied to every step the VM reports, in order. -/
def runTrace (ops : List OnOpCall) : TraceState :=
  ops.foldl onOp TraceState.init

/-! ## Collaborators -/

/-- The collaborators of the client: the account state, the VM executive, the block
chain, the log-filter predicate and the key functions.  Their code is outside this file;
each is a parameter. -/
structure Env where
  /-- The account state `eth::State`. -/
  State : Type
  /-- The block chain `MixBlockChain`. -/
  BlockChain : Type
  /-- The backing store `OverlayDB`. -/
  OverlayDB : Type
  /-- The log predicate `LogFilter`. -/
  LogFilter : Type
  /-- A transaction receipt. -/
  TransactionReceipt : Type
  /-- The call `State::gasLimitRemaining()`. -/
  gasLimitRemaining : State → Nat
  /-- The size of the pending list, `State::pending().size()`. -/
  pendingSize : State → Nat
  /-- The call `State::receipt(i)`. -/
  receipt : State → Nat → TransactionReceipt
  /-- The call `State::code(address)`. -/
  code : State → Address → bytes
  /-- The call `State::execute(lastHashes, t)`: the state after it and its result. -/
  execute : State → List h256 → Transaction → State × EthExecutionResult
  /-- The call `State::commitToMine(bc)`. -/
  commitToMine : State → BlockChain → State
  /-- The call `State::completeMine()`. -/
  completeMine : State → State
  /-- The call `State::blockData()`. -/
  blockData : State → bytes
  /-- The call `State::sync(bc)`. -/
  sync : State → BlockChain → State
  /-- An `Executive` built on a copy of a state and run through `initialize`, `execute`,
  `go(onOp)` and `finalize`: the observer invocations it makes, in order, and its
  `executionResult()`. -/
  executive : State → List h256 → Transaction → List OnOpCall × EthExecutionResult
  /-- The call `BlockChain::number()`. -/
  number : BlockChain → Nat
  /-- The call `BlockChain::numberHash(n)`. -/
  numberHash : BlockChain → Nat → h256
  /-- The parent of a block, `BlockChain::details(hash).parent`. -/
  detailsParent : BlockChain → h256 → h256
  /-- The call `BlockChain::import(block, db, ...)`: the chain and the store after it. -/
  bcImport : BlockChain → bytes → OverlayDB → BlockChain × OverlayDB
  /-- The call `LogFilter::latest()`, a signed block bound. -/
  latest : LogFilter → Int
  /-- The call `LogFilter::matches(receipt)`. -/
  filterMatches : LogFilter → TransactionReceipt → List LogEntry
  /-- The address of a key, `toAddress(secret)`. -/
  toAddress : Secret → Address
  /-- The contract address `right160(sha3(rlpList(sender, nonce)))`. -/
  newContractAddress : Address → Nat → Address

/-! ## The client -/

/-- Modelled from the spec: the execution record `dev::mix::ExecutionResult`.  The
pending-transaction index is absent for read-only calls. -/
structure ExecutionResult where
  result : EthExecutionResult
  machineStates : List MachineState
  transactionData : List bytes
  executionCode : List MachineCode
  address : Address
  sender : Address
  contractAddress : Address
  value : Nat
  gasUsed : Nat
  transactionIndex : Option Nat
  executonIndex : Nat
deriving DecidableEq, Repr

/-- The members of `MixClient` this file reads or writes. -/
structure MixClient (E : Env) where
  m_state : E.State
  m_startState : E.State
  m_stateDB : E.OverlayDB
  m_bc : E.BlockChain
  m_filters : StdMap h256 (InstalledFilter E.LogFilter)
  m_watches : StdMap Nat ClientWatch
  m_executions : List ExecutionResult

/-- What a `State&` parameter denotes: the client's own `m_state`, or a state that is
local to the caller. -/
inductive StateRef (S : Type) where
  | live : StateRef S
  | temp : S → StateRef S

/-- The state a reference denotes. -/
def StateRef.get {E : Env} (r : StateRef E.State) (c : MixClient E) : E.State :=
  match r with
  | .live => c.m_state
  | .temp s => s

/-- The client after the state a reference denotes is overwritten. -/
def StateRef.setClient {E : Env} (r : StateRef E.State) (c : MixClient E) (s : E.State) :
    MixClient E :=
  match r with
  | .live => { c with m_state := s }
  | .temp _ => c

/-- The reference after the state it denotes is overwritten. -/
def StateRef.setRef {S : Type} (r : StateRef S) (s : S) : StateRef S :=
  match r with
  | .live => .live
  | .temp _ => .temp s

/-- The class of a thrown exception. -/
inductive ExceptionClass where
  | Exception
  | OutOfGas
deriving DecidableEq, Repr

/-- A thrown exception: its class and its `errinfo_comment`. -/
structure MixException where
  cls : ExceptionClass
  comment : String
deriving DecidableEq, Repr

/-- Modelled from the spec: the error kinds of the taxonomy. -/
inductive ErrorKind where
  | InsufficientFunds
  | OutOfGas
  | StackFault
  | InternalExecutionError
deriving DecidableEq, Repr

/-- Modelled from the spec: the kind a thrown exception is reported as.  An `OutOfGas`
exception is gas exhaustion; a plain `Exception` is told apart by its comment. -/
def MixException.kind (e : MixException) : ErrorKind :=
  match e.cls with
  | .OutOfGas => .OutOfGas
  | .Exception =>
    if e.comment = "Insufficient balance for contract deployment" then .InsufficientFunds
    else if e.comment = "Out of stack" ∨ e.comment = "Stack underflow" then .StackFault
    else .InternalExecutionError

/-- The state a call of `executeTransaction` leaves behind: the client, the referenced
state, and the exception if one was thrown. -/
structure Outcome (E : Env) where
  client : MixClient E
  target : StateRef E.State
  thrown : Option MixException

/-- The function `replaceGas`. -/
def replaceGas (_t : Transaction) (_secret : Secret) (_gas : Nat) : Transaction :=
  if _t.isCreation then
    Transaction.create _t.value _t.gasPrice _gas _t.data _t.nonce _secret
  else
    Transaction.call _t.value _t.gasPrice _gas _t.receiveAddress _t.data _t.nonce _secret

/-- The 256 hashes `lastHashes`: the head of the chain, then parent after parent, with the
null hash once a null hash is reached. -/
def lastHashes (E : Env) (bc : E.BlockChain) : List h256 :=
  List.iterate (fun h => if h ≠ 0 then E.detailsParent bc h else 0)
    (E.numberHash bc (E.number bc)) 256

/-- The switch on `er.excepted`: the exception it throws, if any. -/
def throwOnExcepted : TransactionException → Option MixException
  | .None => none
  | .NotEnoughCash => some ⟨.Exception, "Insufficient balance for contract deployment"⟩
  | .OutOfGasBase => some ⟨.OutOfGas, "Not enough gas"⟩
  | .OutOfGas => some ⟨.OutOfGas, "Not enough gas"⟩
  | .BlockGasLimitReached => some ⟨.OutOfGas, "Block gas limit reached"⟩
  | .OutOfStack => some ⟨.Exception, "Out of stack"⟩
  | .StackUnderflow => some ⟨.Exception, "Stack underflow"⟩
  | .Unknown => some ⟨.Exception, "Internal execution error"⟩
  | .BadInstruction => some ⟨.Exception, "Internal execution error"⟩
  | .BadJumpDestination => some ⟨.Exception, "Internal execution error"⟩
  | .InvalidSignature => some ⟨.Exception, "Internal execution error"⟩
  | .InvalidNonce => some ⟨.Exception, "Internal execution error"⟩

/-- The exception thrown when a committed creation leaves no code. -/
def deploymentOutOfGas : MixException :=
  ⟨.OutOfGas, "Not enough gas for contract deployment"⟩

/-- The function `noteChanged`. -/
def noteChanged {E : Env} (c : MixClient E) (_filters : List h256) : MixClient E :=
  let watches := c.m_watches.forEach (fun _ w =>
    if w.id ∈ _filters then
      if c.m_filters.count w.id ≠ 0 then
        match c.m_filters.find? w.id with
        | some f => { w with changes := w.changes ++ f.changes }
        | none => w
      else
        { w with changes := w.changes ++ [⟨SpecialLogEntry, 0⟩] }
    else w)
  { c with
    m_watches := watches
    m_filters := c.m_filters.forEach (fun _ f => { f with changes := [] }) }

/-- The transaction the debugging run executes. -/
def debugTransaction {E : Env} (c : MixClient E) (_t : Transaction) (_gasAuto : Bool)
    (_secret : Secret) : Transaction :=
  if _gasAuto then replaceGas _t _secret (E.gasLimitRemaining c.m_state) else _t

/-- The debugging run: the executive on a copy `execState` of the referenced state. -/
def debugRun {E : Env} (c : MixClient E) (_t : Transaction) (_state : StateRef E.State)
    (_gasAuto : Bool) (_secret : Secret) : List OnOpCall × EthExecutionResult :=
  let execState := _state.get c
  E.executive execState (lastHashes E c.m_bc) (debugTransaction c _t _gasAuto _secret)

/-- The record `d` as assembled after the debugging run, before the commit pass. -/
def assembleRecord {E : Env} (c : MixClient E) (_t : Transaction) (_call : Bool)
    (er : EthExecutionResult) (tr : TraceState) : ExecutionResult :=
  { result := er
    machineStates := tr.machineStates
    executionCode := tr.codes
    transactionData := tr.data
    address := _t.receiveAddress
    sender := E.toAddress _t.secret
    value := _t.value
    gasUsed := u256Add er.gasUsed er.gasRefunded
    contractAddress :=
      if _t.isCreation then E.newContractAddress (E.toAddress _t.secret) _t.nonce else 0
    transactionIndex := if _call then none else some (E.pendingSize c.m_state)
    executonIndex := c.m_executions.length }

/-- The transaction the commit pass executes. -/
def commitTransaction (_t : Transaction) (_gasAuto : Bool) (_secret : Secret)
    (d : ExecutionResult) : Transaction :=
  if _gasAuto then replaceGas _t _secret d.gasUsed else _t

/-- The receipt the filters are matched against,
`_state.receipt(_state.pending().size() - 1)`. -/
def lastReceipt (E : Env) (s : E.State) : E.TransactionReceipt :=
  E.receipt s (toUnsigned ((E.pendingSize s : Int) - 1))

/-- The guard of the "collect watches" loop for one filter: its bound, cast to
`unsigned`, exceeds the chain height and its match list `m` is non-empty. -/
def filterCatches {E : Env} (c : MixClient E) (s : E.State) (f : InstalledFilter E.LogFilter) :
    Bool :=
  decide (toUnsigned (E.latest f.filter) > E.number c.m_bc) &&
    decide ((E.filterMatches f.filter (lastReceipt E s)).length ≠ 0)

/-- The "collect watches" loop: a filter that catches the receipt gains every matched
entry, tagged `number() + 1`, and its id goes into `changed`; the pending-changed id is
inserted last. -/
def collectWatches {E : Env} (c : MixClient E) (s : E.State) : MixClient E × List h256 :=
  let filters := c.m_filters.forEach (fun _ f =>
    if filterCatches c s f then
      let m := E.filterMatches f.filter (lastReceipt E s)
      let number := toUnsigned ((E.number c.m_bc : Int) + 1)
      { f with changes := f.changes ++ m.map (fun l => LocalisedLogEntry.mk l number) }
    else f)
  let changed := (c.m_filters.entries.filter (fun e => filterCatches c s e.2)).map Prod.fst
  ({ c with m_filters := filters }, changed ++ [PendingChangedFilter])

/-- The function `executeTransaction`. -/
def executeTransaction {E : Env} (c : MixClient E) (_t : Transaction)
    (_state : StateRef E.State) (_call _gasAuto : Bool) (_secret : Secret) : Outcome E :=
  let run := debugRun c _t _state _gasAuto _secret
  let tr := runTrace run.1
  let er := run.2
  match throwOnExcepted er.excepted with
  | some e => ⟨c, _state, some e⟩
  | none =>
    let d := assembleRecord c _t _call er tr
    if _call then
      ⟨{ c with m_executions := c.m_executions ++ [d] }, _state, none⟩
    else
      let t := commitTransaction _t _gasAuto _secret d
      let ex := E.execute (_state.get c) (lastHashes E c.m_bc) t
      let c1 := _state.setClient c ex.1
      let ref1 := _state.setRef ex.1
      if t.isCreation && (E.code ex.1 d.contractAddress).isEmpty then
        ⟨c1, ref1, some deploymentOutOfGas⟩
      else
        let d1 := { d with
          gasUsed := u256Add (u256Add ex.2.gasUsed ex.2.gasRefunded) ex.2.gasForDeposit }
        let cw := collectWatches c1 ex.1
        let c2 := noteChanged cw.1 cw.2
        ⟨{ c2 with m_executions := c2.m_executions ++ [d1] }, ref1, none⟩

/-- The function `mine`. -/
def mine {E : Env} (c : MixClient E) : MixClient E :=
  let s1 := E.commitToMine c.m_state c.m_bc
  let s2 := E.completeMine s1
  let imp := E.bcImport c.m_bc (E.blockData s2) c.m_stateDB
  let s3 := E.sync s2 imp.1
  let c1 : MixClient E :=
    { c with m_state := s3, m_bc := imp.1, m_stateDB := imp.2, m_startState := s3 }
  noteChanged c1 [PendingChangedFilter, ChainChangedFilter]

/-! ## A concrete sandbox

A small instance of the collaborators, on which the definitions above can be evaluated. -/

/-- A `VM` snapshot with the given program counter. -/
def sampleVM (pc : Nat) : VM := ⟨pc, 90000, [pc], []⟩

/-- Four observed steps: two in the outer frame (code buffer 100, data buffer 200) around
two in a called frame (code buffer 101, data buffer 201). -/
def sampleOps : List OnOpCall :=
  [ ⟨0, 96, 0, 3, sampleVM 0, ⟨100, [96, 241], 200, [1], 0, 11, []⟩⟩,
    ⟨1, 96, 0, 3, sampleVM 0, ⟨101, [96, 0], 201, [], 1, 12, []⟩⟩,
    ⟨2, 0, 0, 0, sampleVM 2, ⟨101, [96, 0], 201, [], 1, 12, []⟩⟩,
    ⟨3, 0, 0, 0, sampleVM 2, ⟨100, [96, 241], 200, [1], 0, 11, []⟩⟩ ]

/-- A collaborator set.  The state is the list of pending transactions and the chain is
its height.  The executive reports `sampleOps` and fails with `OutOfGasBase` below 21000
gas; it measures 21000 gas used and 4000 refunded.  A creation deploys its data as code.
A filter is a signed bound and an address, and catches the log entries of that
address; the receipt of a transaction holds one entry, from its destination. -/
@[reducible] def sampleEnv : Env where
  State := List Transaction
  BlockChain := Nat
  OverlayDB := Unit
  LogFilter := Int × Address
  TransactionReceipt := List LogEntry
  gasLimitRemaining := fun _ => 3141592
  pendingSize := fun s => s.length
  receipt := fun s i =>
    match s[i]? with
    | some t => [⟨t.receiveAddress, [t.value], t.data⟩]
    | none => []
  code := fun s a =>
    (s.filter (fun t => t.isCreation && decide (t.secret + t.nonce + 1000 = a))).flatMap
      (fun t => t.data)
  execute := fun s _ t => (s ++ [t], ⟨.None, 21000, 0, 0, []⟩)
  commitToMine := fun s _ => s
  completeMine := fun s => s
  blockData := fun _ => []
  sync := fun _ _ => []
  executive := fun _ _ t =>
    (sampleOps, ⟨if t.gas < 21000 then .OutOfGasBase else .None, 21000, 4000, 0, []⟩)
  number := fun bc => bc
  numberHash := fun _ n => n + 1
  detailsParent := fun _ h => h - 1
  bcImport := fun bc _ db => (bc + 1, db)
  latest := fun f => f.1
  filterMatches := fun f r => r.filter (fun l => decide (l.address = f.2))
  toAddress := fun s => s
  newContractAddress := fun a n => a + n + 1000

/-- An accumulated change. -/
def sampleChange : LocalisedLogEntry := ⟨⟨42, [7], [1, 2]⟩, 3⟩

/-- A client at chain height 5 with one filter, stored under id 77, that catches the logs
of address 42 and has one accumulated change, a watch bound to it, a watch bound to the
pending-changed id and a watch bound to the chain-changed id. -/
def sampleClient : MixClient sampleEnv where
  m_state := []
  m_startState := []
  m_stateDB := ()
  m_bc := 5
  m_filters := ⟨[(77, ⟨(10, 42), 1, [sampleChange]⟩)], by decide⟩
  m_watches := ⟨[(0, ⟨77, []⟩), (1, ⟨PendingChangedFilter, []⟩),
    (2, ⟨ChainChangedFilter, []⟩)], by decide⟩
  m_executions := []

/-- A message call to address 42 with 50000 gas, signed with key 9. -/
def sampleCall : Transaction := Transaction.call 100 1 50000 42 [5] 0 9

/-- A message call with too little gas for the base cost. -/
def sampleCheapCall : Transaction := Transaction.call 100 1 20000 42 [5] 0 9

/-- A creation whose init code deploys nothing. -/
def sampleEmptyCreate : Transaction := Transaction.create 0 1 50000 [] 0 9

/-- A client at chain height 5 whose one filter, stored under id 77, has the signed
bound -1 (no upper bound), catches the logs of address 42 and holds no accumulated
change.  One watch is bound to it; no filter is stored under a sentinel id. -/
def openBoundClient : MixClient sampleEnv where
  m_state := []
  m_startState := []
  m_stateDB := ()
  m_bc := 5
  m_filters := ⟨[(77, ⟨(-1, 42), 1, []⟩)], by decide⟩
  m_watches := ⟨[(0, ⟨77, []⟩)], by decide⟩
  m_executions := []

/-! ## The two de-duplication tables, seen as one construction

The code part and the data part of `onOp` are the same construction on different locals.
`DedupTable` names that construction; it is used to state the invariant of the tables
once for both. -/

/-- The locals of one table: the table, its index map, the buffer seen last and the
current index. -/
structure DedupTable (α : Type) where
  items : List α
  indexes : List (Nat × Nat)
  last : Option Nat
  index : Nat

/-- One step of a table on the buffer address `p` with contents `a`. -/
def DedupTable.step {α : Type} (t : DedupTable α) (p : Nat) (a : α) : DedupTable α :=
  if t.last = none ∨ t.last ≠ some p then
    match t.indexes.lookup p with
    | some i => { t with index := i, last := some p }
    | none =>
      { items := t.items ++ [a]
        indexes := (p, t.items.length) :: t.indexes
        last := some p
        index := t.items.length }
  else t

/-- The code table among the trace locals. -/
def codeTable (s : TraceState) : DedupTable MachineCode :=
  ⟨s.codes, s.codeIndexes, s.lastCode, s.codeIndex⟩

/-- The data table among the trace locals. -/
def dataTable (s : TraceState) : DedupTable bytes :=
  ⟨s.data, s.dataIndexes, s.lastData, s.dataIndex⟩

/-- The buffer address and table entry a step offers to the code table. -/
def codeKey (o : OnOpCall) : Nat × MachineCode :=
  (o.ext.codePtr, ⟨o.ext.myAddress, o.ext.code⟩)

/-- The buffer address and table entry a step offers to the data table. -/
def dataKey (o : OnOpCall) : Nat × bytes :=
  (o.ext.dataPtr, o.ext.data)

/-- The invariant of a table after the buffers `seen`, with `recorded` the index written
into the record of each step: the index map has exactly the addresses seen, each bound to
the position of the entry offered when the address was first seen; no two addresses share
a position; the current index is that of the address seen last; and each recorded index
is the one the map holds for the address of its step. -/
structure DedupTable.Inv {α : Type} (t : DedupTable α) (seen : List (Nat × α))
    (recorded : List Nat) : Prop where
  keys : ∀ p : Nat, t.indexes.lookup p = none ↔ seen.find? (fun e => decide (e.1 = p)) = none
  entry : ∀ (p i : Nat), t.indexes.lookup p = some i →
    t.items[i]? = (seen.find? (fun e => decide (e.1 = p))).map Prod.snd
  bound : ∀ (p i : Nat), t.indexes.lookup p = some i → i < t.items.length
  inj : ∀ (p q i : Nat), t.indexes.lookup p = some i → t.indexes.lookup q = some i → p = q
  current : ∀ p : Nat, t.last = some p → t.indexes.lookup p = some t.index
  length_eq : recorded.length = seen.length
  recorded_eq : ∀ (k : Nat) (e : Nat × α) (r : Nat), seen[k]? = some e → recorded[k]? = some r →
    t.indexes.lookup e.1 = some r

/-! ## Lemmas on `StdMap` -/

theorem StdMap.find?_forEach {K V : Type} [DecidableEq K] (m : StdMap K V) (f : K → V → V)
    (k : K) : (m.forEach f).find? k = (m.find? k).map (f k) := by
  unfold StdMap.find? StdMap.forEach
  simp only
  generalize m.entries = l
  induction l with
  | nil => rfl
  | cons e l ih =>
    by_cases h : e.1 = k
    · subst h; simp [List.find?_cons]
    · simp only [List.map_cons, List.find?_cons, h, decide_False]
      exact ih

theorem StdMap.count_ne_zero {K V : Type} [DecidableEq K] (m : StdMap K V) (k : K) :
    m.count k ≠ 0 ↔ ∃ v, m.find? k = some v := by
  unfold StdMap.count
  cases h : m.find? k <;> simp

theorem StdMap.count_eq_zero {K V : Type} [DecidableEq K] (m : StdMap K V) (k : K) :
    m.count k = 0 ↔ m.find? k = none := by
  unfold StdMap.count
  cases h : m.find? k <;> simp

/-! ## `noteChanged` -/

theorem noteChanged_watch {E : Env} (c : MixClient E) (ids : List h256) (k : Nat) :
    (noteChanged c ids).m_watches.find? k =
      (c.m_watches.find? k).map (fun w =>
        if w.id ∈ ids then
          match c.m_filters.find? w.id with
          | some f => { w with changes := w.changes ++ f.changes }
          | none => { w with changes := w.changes ++ [⟨SpecialLogEntry, 0⟩] }
        else w) := by
  unfold noteChanged
  simp only [StdMap.find?_forEach]
  congr 1
  funext w
  by_cases hm : w.id ∈ ids
  · simp only [hm, if_true]
    cases hf : c.m_filters.find? w.id with
    | none =>
      have : c.m_filters.count w.id = 0 := (StdMap.count_eq_zero _ _).2 hf
      simp [this]
    | some f =>
      have : c.m_filters.count w.id ≠ 0 := (StdMap.count_ne_zero _ _).2 ⟨f, hf⟩
      simp [this]
  · simp [hm]

theorem noteChanged_filter {E : Env} (c : MixClient E) (ids : List h256) (id : h256) :
    (noteChanged c ids).m_filters.find? id =
      (c.m_filters.find? id).map (fun f => { f with changes := [] }) := by
  unfold noteChanged
  simp only [StdMap.find?_forEach]

/-- C1. After `noteChanged(changedIds)`, every watch whose bound id is in `changedIds` and
names a registered filter `F` holds its old change-list followed by the whole change-list
`F` had before the call (for every such watch, also when several are bound to one
filter); every registered filter is still registered, with its predicate, and every
filter's change-list is empty. -/
theorem noteChanged_merge_and_clear {E : Env} (c : MixClient E) (changedIds : List h256) :
    (∀ (k : Nat) (w : ClientWatch) (F : InstalledFilter E.LogFilter),
      c.m_watches.find? k = some w → w.id ∈ changedIds → c.m_filters.find? w.id = some F →
      (noteChanged c changedIds).m_watches.find? k =
        some { w with changes := w.changes ++ F.changes }) ∧
    (∀ (id : h256) (F : InstalledFilter E.LogFilter), c.m_filters.find? id = some F →
      (noteChanged c changedIds).m_filters.find? id = some { F with changes := [] }) ∧
    (∀ (id : h256) (F : InstalledFilter E.LogFilter),
      (noteChanged c changedIds).m_filters.find? id = some F → F.changes = []) := by
  refine ⟨?_, ?_, ?_⟩
  · intro k w F hw hid hF
    rw [noteChanged_watch, hw]
    simp [hid, hF]
  · intro id F hF
    rw [noteChanged_filter, hF]
    rfl
  · intro id F hF
    rw [noteChanged_filter] at hF
    cases h : c.m_filters.find? id with
    | none => rw [h] at hF; simp at hF
    | some f =>
      rw [h] at hF
      simp only [Option.map_some', Option.some.injEq] at hF
      rw [← hF]

/-- On the sample client, notifying id 77 moves the accumulated change of the filter
stored under 77 to the watch bound to it and empties the filter. -/
theorem noteChanged_merge_and_clear_witness :
    (noteChanged sampleClient [77]).m_watches.find? 0 = some ⟨77, [sampleChange]⟩ ∧
    (noteChanged sampleClient [77]).m_filters.find? 77 = some ⟨(10, 42), 1, []⟩ :=
  ⟨(noteChanged_merge_and_clear sampleClient [77]).1 0 ⟨77, []⟩
      ⟨(10, 42), 1, [sampleChange]⟩ (by decide) (by decide) (by decide),
   (noteChanged_merge_and_clear sampleClient [77]).2.1 77 ⟨(10, 42), 1, [sampleChange]⟩
      (by decide)⟩

/-! ## `executeTransaction`: the shape of its outcome -/

theorem throwOnExcepted_eq_none (x : TransactionException) :
    throwOnExcepted x = none ↔ x = .None := by
  cases x <;> simp [throwOnExcepted]

theorem executeTransaction_throw {E : Env} (c : MixClient E) (_t : Transaction)
    (_state : StateRef E.State) (_call _gasAuto : Bool) (_secret : Secret) (e : MixException)
    (h : throwOnExcepted (debugRun c _t _state _gasAuto _secret).2.excepted = some e) :
    executeTransaction c _t _state _call _gasAuto _secret = ⟨c, _state, some e⟩ := by
  unfold executeTransaction
  simp only [h]

theorem executeTransaction_call {E : Env} (c : MixClient E) (_t : Transaction)
    (_state : StateRef E.State) (_gasAuto : Bool) (_secret : Secret)
    (h : (debugRun c _t _state _gasAuto _secret).2.excepted = .None) :
    executeTransaction c _t _state true _gasAuto _secret =
      ⟨{ c with m_executions := c.m_executions ++
          [assembleRecord c _t true (debugRun c _t _state _gasAuto _secret).2
            (runTrace (debugRun c _t _state _gasAuto _secret).1)] }, _state, none⟩ := by
  unfold executeTransaction
  simp only [h, throwOnExcepted, if_true]

/-- The outcome of a submission whose dry run reports no failure. -/
theorem executeTransaction_commit {E : Env} (c : MixClient E) (_t : Transaction)
    (_state : StateRef E.State) (_gasAuto : Bool) (_secret : Secret)
    (h : (debugRun c _t _state _gasAuto _secret).2.excepted = .None) :
    executeTransaction c _t _state false _gasAuto _secret =
      (let d := assembleRecord c _t false (debugRun c _t _state _gasAuto _secret).2
          (runTrace (debugRun c _t _state _gasAuto _secret).1)
       let t := commitTransaction _t _gasAuto _secret d
       let ex := E.execute (_state.get c) (lastHashes E c.m_bc) t
       let c1 := _state.setClient c ex.1
       if t.isCreation && (E.code ex.1 d.contractAddress).isEmpty then
         ⟨c1, _state.setRef ex.1, some deploymentOutOfGas⟩
       else
         let c2 := noteChanged (collectWatches c1 ex.1).1 (collectWatches c1 ex.1).2
         ⟨{ c2 with m_executions := c2.m_executions ++
             [{ d with gasUsed :=
                 u256Add (u256Add ex.2.gasUsed ex.2.gasRefunded) ex.2.gasForDeposit }] },
           _state.setRef ex.1, none⟩) := by
  unfold executeTransaction
  simp only [h, throwOnExcepted, Bool.false_eq_true, if_false]

theorem StateRef.get_setRef_setClient {E : Env} (r : StateRef E.State) (c : MixClient E)
    (s : E.State) : (r.setRef s).get (r.setClient c s) = s := by
  cases r <;> rfl

theorem StateRef.setClient_fields {E : Env} (r : StateRef E.State) (c : MixClient E)
    (s : E.State) :
    (r.setClient c s).m_filters = c.m_filters ∧ (r.setClient c s).m_watches = c.m_watches ∧
    (r.setClient c s).m_executions = c.m_executions ∧ (r.setClient c s).m_bc = c.m_bc := by
  cases r <;> exact ⟨rfl, rfl, rfl, rfl⟩

theorem replaceGas_fields (_t : Transaction) (_secret : Secret) (_gas : Nat) :
    (replaceGas _t _secret _gas).gas = _gas ∧
    (replaceGas _t _secret _gas).value = _t.value ∧
    (replaceGas _t _secret _gas).gasPrice = _t.gasPrice ∧
    (replaceGas _t _secret _gas).data = _t.data ∧
    (replaceGas _t _secret _gas).nonce = _t.nonce ∧
    (replaceGas _t _secret _gas).secret = _secret ∧
    (replaceGas _t _secret _gas).isCreation = _t.isCreation ∧
    (_t.isCreation = false →
      (replaceGas _t _secret _gas).receiveAddress = _t.receiveAddress) ∧
    (_t.isCreation = true → (replaceGas _t _secret _gas).receiveAddress = 0) := by
  unfold replaceGas
  cases h : _t.isCreation <;> simp [Transaction.create, Transaction.call]

theorem commitTransaction_isCreation (_t : Transaction) (_gasAuto : Bool) (_secret : Secret)
    (d : ExecutionResult) :
    (commitTransaction _t _gasAuto _secret d).isCreation = _t.isCreation := by
  unfold commitTransaction
  cases _gasAuto
  · rfl
  · exact (replaceGas_fields _t _secret d.gasUsed).2.2.2.2.2.2.1

/-- The target state after a commit pass is the state `State::execute` returns, whether or
not the creation check throws. -/
theorem executeTransaction_commit_target {E : Env} (c : MixClient E) (_t : Transaction)
    (_state : StateRef E.State) (_gasAuto : Bool) (_secret : Secret)
    (h : (debugRun c _t _state _gasAuto _secret).2.excepted = .None) :
    (executeTransaction c _t _state false _gasAuto _secret).target.get
        (executeTransaction c _t _state false _gasAuto _secret).client =
      (E.execute (_state.get c) (lastHashes E c.m_bc)
        (commitTransaction _t _gasAuto _secret
          (assembleRecord c _t false (debugRun c _t _state _gasAuto _secret).2
            (runTrace (debugRun c _t _state _gasAuto _secret).1)))).1 := by
  rw [executeTransaction_commit c _t _state _gasAuto _secret h]
  simp only
  split
  · exact StateRef.get_setRef_setClient _ _ _
  · cases _state <;> rfl

/-! ## Claims on `executeTransaction` -/

/-- C2. Read-only isolation: when the dry run reports no failure, `executeTransaction`
with `isCall = true` throws nothing, leaves the target state it was given, the live state
(so its pending-transaction list), the start state, the chain, every filter and every
watch unchanged, and makes the execution log its old contents followed by one new record;
every earlier record stays where it was, and the new record carries no
pending-transaction index. -/
theorem call_read_only_isolation {E : Env} (c : MixClient E) (_t : Transaction)
    (_state : StateRef E.State) (_gasAuto : Bool) (_secret : Secret)
    (h : (debugRun c _t _state _gasAuto _secret).2.excepted = .None) :
    (executeTransaction c _t _state true _gasAuto _secret).thrown = none ∧
    (executeTransaction c _t _state true _gasAuto _secret).target = _state ∧
    _state.get (executeTransaction c _t _state true _gasAuto _secret).client = _state.get c ∧
    (executeTransaction c _t _state true _gasAuto _secret).client.m_state = c.m_state ∧
    E.pendingSize (executeTransaction c _t _state true _gasAuto _secret).client.m_state =
      E.pendingSize c.m_state ∧
    (executeTransaction c _t _state true _gasAuto _secret).client.m_startState =
      c.m_startState ∧
    (executeTransaction c _t _state true _gasAuto _secret).client.m_bc = c.m_bc ∧
    (executeTransaction c _t _state true _gasAuto _secret).client.m_filters = c.m_filters ∧
    (executeTransaction c _t _state true _gasAuto _secret).client.m_watches = c.m_watches ∧
    (∃ d : ExecutionResult,
      (executeTransaction c _t _state true _gasAuto _secret).client.m_executions =
        c.m_executions ++ [d] ∧ d.transactionIndex = none) ∧
    (∀ (i : Nat) (r : ExecutionResult), c.m_executions[i]? = some r →
      (executeTransaction c _t _state true _gasAuto _secret).client.m_executions[i]? =
        some r) := by
  rw [executeTransaction_call c _t _state _gasAuto _secret h]
  refine ⟨rfl, rfl, ?_, rfl, rfl, rfl, rfl, rfl, rfl, ⟨_, rfl, ?_⟩, ?_⟩
  · cases _state <;> rfl
  · simp [assembleRecord]
  · intro i r hr
    have hi : i < c.m_executions.length := (List.getElem?_eq_some.1 hr).1
    simp only [List.getElem?_append_left hi]
    exact hr

/-- A read-only call on the sample client, against a caller-local state, throws nothing
and leaves one record in the log. -/
theorem call_read_only_isolation_witness :
    (executeTransaction sampleClient sampleCall (.temp []) true false 9).thrown = none ∧
    (executeTransaction sampleClient sampleCall (.temp []) true false 9).client.m_executions.length
      = 1 :=
  ⟨(call_read_only_isolation sampleClient sampleCall (.temp []) false 9 (by decide)).1,
    by decide⟩

/-- C3. Abort without mutation: for every transaction, target and flag combination, when
the dry run's failure indicator is not `None` the call throws the exception the switch
selects, and at the throw the client (live state, execution log, every filter and every
watch) and the target state are exactly as before the call, the commit pass not having
run; when the indicator is `None` the switch throws nothing: a call appends its record,
and a submission reaches the commit pass, whose state the target then holds. -/
theorem abort_without_mutation {E : Env} (c : MixClient E) (_t : Transaction)
    (_state : StateRef E.State) (_call _gasAuto : Bool) (_secret : Secret) :
    ((debugRun c _t _state _gasAuto _secret).2.excepted ≠ .None →
      (executeTransaction c _t _state _call _gasAuto _secret).thrown ≠ none ∧
      (executeTransaction c _t _state _call _gasAuto _secret).thrown =
        throwOnExcepted (debugRun c _t _state _gasAuto _secret).2.excepted ∧
      (executeTransaction c _t _state _call _gasAuto _secret).client = c ∧
      (executeTransaction c _t _state _call _gasAuto _secret).target = _state ∧
      (executeTransaction c _t _state _call _gasAuto _secret).target.get
        (executeTransaction c _t _state _call _gasAuto _secret).client = _state.get c) ∧
    ((debugRun c _t _state _gasAuto _secret).2.excepted = .None →
      throwOnExcepted (debugRun c _t _state _gasAuto _secret).2.excepted = none ∧
      (_call = true →
        (executeTransaction c _t _state _call _gasAuto _secret).thrown = none ∧
        (executeTransaction c _t _state _call _gasAuto _secret).client.m_executions.length =
          c.m_executions.length + 1) ∧
      (_call = false →
        (executeTransaction c _t _state _call _gasAuto _secret).target.get
            (executeTransaction c _t _state _call _gasAuto _secret).client =
          (E.execute (_state.get c) (lastHashes E c.m_bc)
            (commitTransaction _t _gasAuto _secret
              (assembleRecord c _t false (debugRun c _t _state _gasAuto _secret).2
                (runTrace (debugRun c _t _state _gasAuto _secret).1)))).1)) := by
  constructor
  · intro h
    cases hx : throwOnExcepted (debugRun c _t _state _gasAuto _secret).2.excepted with
    | none => exact absurd ((throwOnExcepted_eq_none _).1 hx) h
    | some e =>
      rw [executeTransaction_throw c _t _state _call _gasAuto _secret e hx]
      exact ⟨by simp, rfl, rfl, rfl, rfl⟩
  · intro h
    refine ⟨(throwOnExcepted_eq_none _).2 h, ?_, ?_⟩
    · intro hc
      subst hc
      rw [executeTransaction_call c _t _state _gasAuto _secret h]
      simp
    · intro hc
      subst hc
      exact executeTransaction_commit_target c _t _state _gasAuto _secret h

/-- A submission with too little gas on the sample client: the dry run reports
`OutOfGasBase`, the call throws and the live state holds no pending transaction. -/
theorem abort_without_mutation_witness :
    (executeTransaction sampleClient sampleCheapCall .live false false 9).thrown ≠ none ∧
    (executeTransaction sampleClient sampleCheapCall .live false false 9).client =
      sampleClient :=
  ⟨((abort_without_mutation sampleClient sampleCheapCall .live false false 9).1
      (by decide)).1,
   ((abort_without_mutation sampleClient sampleCheapCall .live false false 9).1
      (by decide)).2.2.1⟩

/-- C6. Commit-pass gas limit: in a non-call `executeTransaction` whose dry run succeeds,
the target state after the call is the result of `State::execute` on the commit
transaction.  With `autoGas` that transaction has as gas limit the record's `gasUsed` at
that point, which is the dry run's gas used plus gas refunded (a `u256` sum, the plain sum
whenever that fits 256 bits), and the value, gas price, data, nonce and
creation-versus-call shape of the submitted transaction, with the same destination when
it is a call; it is signed with the key passed in.  Without `autoGas` it is the submitted
transaction itself. -/
theorem commit_pass_gas_limit {E : Env} (c : MixClient E) (_t : Transaction)
    (_state : StateRef E.State) (_gasAuto : Bool) (_secret : Secret)
    (h : (debugRun c _t _state _gasAuto _secret).2.excepted = .None) :
    (executeTransaction c _t _state false _gasAuto _secret).target.get
        (executeTransaction c _t _state false _gasAuto _secret).client =
      (E.execute (_state.get c) (lastHashes E c.m_bc)
        (commitTransaction _t _gasAuto _secret
          (assembleRecord c _t false (debugRun c _t _state _gasAuto _secret).2
            (runTrace (debugRun c _t _state _gasAuto _secret).1)))).1 ∧
    (_gasAuto = true →
      (commitTransaction _t _gasAuto _secret
          (assembleRecord c _t false (debugRun c _t _state _gasAuto _secret).2
            (runTrace (debugRun c _t _state _gasAuto _secret).1))).gas =
        (assembleRecord c _t false (debugRun c _t _state _gasAuto _secret).2
            (runTrace (debugRun c _t _state _gasAuto _secret).1)).gasUsed ∧
      (assembleRecord c _t false (debugRun c _t _state _gasAuto _secret).2
            (runTrace (debugRun c _t _state _gasAuto _secret).1)).gasUsed =
        u256Add (debugRun c _t _state _gasAuto _secret).2.gasUsed
          (debugRun c _t _state _gasAuto _secret).2.gasRefunded ∧
      ((debugRun c _t _state _gasAuto _secret).2.gasUsed +
          (debugRun c _t _state _gasAuto _secret).2.gasRefunded < 2 ^ 256 →
        (commitTransaction _t _gasAuto _secret
          (assembleRecord c _t false (debugRun c _t _state _gasAuto _secret).2
            (runTrace (debugRun c _t _state _gasAuto _secret).1))).gas =
          (debugRun c _t _state _gasAuto _secret).2.gasUsed +
            (debugRun c _t _state _gasAuto _secret).2.gasRefunded) ∧
      ∀ d : ExecutionResult,
        (commitTransaction _t _gasAuto _secret d).value = _t.value ∧
        (commitTransaction _t _gasAuto _secret d).gasPrice = _t.gasPrice ∧
        (commitTransaction _t _gasAuto _secret d).data = _t.data ∧
        (commitTransaction _t _gasAuto _secret d).nonce = _t.nonce ∧
        (commitTransaction _t _gasAuto _secret d).isCreation = _t.isCreation ∧
        (commitTransaction _t _gasAuto _secret d).secret = _secret ∧
        (_t.isCreation = false →
          (commitTransaction _t _gasAuto _secret d).receiveAddress = _t.receiveAddress)) ∧
    (_gasAuto = false → ∀ d : ExecutionResult,
      commitTransaction _t _gasAuto _secret d = _t) := by
  refine ⟨executeTransaction_commit_target c _t _state _gasAuto _secret h, ?_, ?_⟩
  · intro hg
    subst hg
    have hgas : ∀ d : ExecutionResult, (commitTransaction _t true _secret d).gas = d.gasUsed :=
      fun d => (replaceGas_fields _t _secret d.gasUsed).1
    refine ⟨hgas _, rfl, ?_, ?_⟩
    · intro hlt
      rw [hgas]
      show u256Add _ _ = _
      unfold u256Add
      exact Nat.mod_eq_of_lt hlt
    · intro d
      have hf := replaceGas_fields _t _secret d.gasUsed
      exact ⟨hf.2.1, hf.2.2.1, hf.2.2.2.1, hf.2.2.2.2.1, hf.2.2.2.2.2.2.1, hf.2.2.2.2.2.1,
        hf.2.2.2.2.2.2.2.1⟩
  · intro hg d
    subst hg
    rfl

/-- An automatic-gas submission on the sample client: the dry run measures 21000 gas used
and 4000 refunded, and the transaction committed to the live state has gas limit 25000. -/
theorem commit_pass_gas_limit_witness :
    ((executeTransaction sampleClient sampleCall .live false true 9).client.m_state.map
      (fun t => t.gas)) = [25000] ∧
    (executeTransaction sampleClient sampleCall .live false true 9).target.get
        (executeTransaction sampleClient sampleCall .live false true 9).client =
      (sampleEnv.execute (StateRef.live.get sampleClient) (lastHashes sampleEnv sampleClient.m_bc)
        (commitTransaction sampleCall true 9
          (assembleRecord sampleClient sampleCall false
            (debugRun sampleClient sampleCall .live true 9).2
            (runTrace (debugRun sampleClient sampleCall .live true 9).1)))).1 :=
  ⟨by decide, (commit_pass_gas_limit sampleClient sampleCall .live true 9 (by decide)).1⟩

/-- C7. Empty deployment is gas exhaustion: in a non-call `executeTransaction` of a
creation whose dry run succeeds, if the target state after the commit pass holds no code
at the contract address derived from the sender and the nonce, the call throws the
`OutOfGas` exception "Not enough gas for contract deployment", of kind `OutOfGas`; the
execution log gains no record and no filter and no watch is modified. -/
theorem empty_deployment_out_of_gas {E : Env} (c : MixClient E) (_t : Transaction)
    (_state : StateRef E.State) (_gasAuto : Bool) (_secret : Secret)
    (h : (debugRun c _t _state _gasAuto _secret).2.excepted = .None)
    (hcreate : _t.isCreation = true)
    (hcode : E.code
      (E.execute (_state.get c) (lastHashes E c.m_bc)
        (commitTransaction _t _gasAuto _secret
          (assembleRecord c _t false (debugRun c _t _state _gasAuto _secret).2
            (runTrace (debugRun c _t _state _gasAuto _secret).1)))).1
      (E.newContractAddress (E.toAddress _t.secret) _t.nonce) = []) :
    (executeTransaction c _t _state false _gasAuto _secret).thrown =
      some ⟨.OutOfGas, "Not enough gas for contract deployment"⟩ ∧
    (executeTransaction c _t _state false _gasAuto _secret).thrown.map MixException.kind =
      some .OutOfGas ∧
    (executeTransaction c _t _state false _gasAuto _secret).client.m_executions =
      c.m_executions ∧
    (executeTransaction c _t _state false _gasAuto _secret).client.m_filters = c.m_filters ∧
    (executeTransaction c _t _state false _gasAuto _secret).client.m_watches =
      c.m_watches := by
  rw [executeTransaction_commit c _t _state _gasAuto _secret h]
  have hadr : (assembleRecord c _t false (debugRun c _t _state _gasAuto _secret).2
      (runTrace (debugRun c _t _state _gasAuto _secret).1)).contractAddress =
      E.newContractAddress (E.toAddress _t.secret) _t.nonce := by
    simp [assembleRecord, hcreate]
  simp only [commitTransaction_isCreation, hcreate, hadr, hcode, List.isEmpty_nil,
    Bool.and_self, if_true]
  have hf := StateRef.setClient_fields _state c
    (E.execute (_state.get c) (lastHashes E c.m_bc)
      (commitTransaction _t _gasAuto _secret
        (assembleRecord c _t false (debugRun c _t _state _gasAuto _secret).2
          (runTrace (debugRun c _t _state _gasAuto _secret).1)))).1
  exact ⟨rfl, rfl, hf.2.2.1, hf.1, hf.2.1⟩

/-- A creation that deploys no code, submitted on the sample client: the call throws the
deployment exception and the log stays empty. -/
theorem empty_deployment_out_of_gas_witness :
    (executeTransaction sampleClient sampleEmptyCreate .live false false 9).thrown =
      some ⟨.OutOfGas, "Not enough gas for contract deployment"⟩ ∧
    (executeTransaction sampleClient sampleEmptyCreate .live false false 9).client.m_executions
      = [] :=
  ⟨(empty_deployment_out_of_gas sampleClient sampleEmptyCreate .live false 9
      (by decide) (by decide) (by decide)).1,
   (empty_deployment_out_of_gas sampleClient sampleEmptyCreate .live false 9
      (by decide) (by decide) (by decide)).2.2.1⟩

/-- C8. Failure-kind mapping: the exception `executeTransaction` throws on a dry-run
failure indicator is of kind `InsufficientFunds` for `NotEnoughCash`; `OutOfGas` for
`OutOfGasBase`, `OutOfGas` and `BlockGasLimitReached`; `StackFault` for `OutOfStack` and
`StackUnderflow`; `InternalExecutionError` for `Unknown`, `BadInstruction`,
`BadJumpDestination`, `InvalidSignature` and `InvalidNonce`; for `None` the switch throws
nothing.  The mapping is total: every indicator other than `None` makes the call throw,
so none lets the submission continue. -/
theorem failure_kind_mapping {E : Env} (c : MixClient E) (_t : Transaction)
    (_state : StateRef E.State) (_call _gasAuto : Bool) (_secret : Secret) :
    (∀ x : TransactionException, (debugRun c _t _state _gasAuto _secret).2.excepted = x →
      ((x = .NotEnoughCash →
          (executeTransaction c _t _state _call _gasAuto _secret).thrown.map MixException.kind =
            some .InsufficientFunds) ∧
       (x = .OutOfGasBase ∨ x = .OutOfGas ∨ x = .BlockGasLimitReached →
          (executeTransaction c _t _state _call _gasAuto _secret).thrown.map MixException.kind =
            some .OutOfGas) ∧
       (x = .OutOfStack ∨ x = .StackUnderflow →
          (executeTransaction c _t _state _call _gasAuto _secret).thrown.map MixException.kind =
            some .StackFault) ∧
       (x = .Unknown ∨ x = .BadInstruction ∨ x = .BadJumpDestination ∨
          x = .InvalidSignature ∨ x = .InvalidNonce →
          (executeTransaction c _t _state _call _gasAuto _secret).thrown.map MixException.kind =
            some .InternalExecutionError) ∧
       (x = .None → throwOnExcepted x = none) ∧
       (x ≠ .None →
          (executeTransaction c _t _state _call _gasAuto _secret).thrown ≠ none ∧
          (executeTransaction c _t _state _call _gasAuto _secret).client = c))) ∧
    (∀ x : TransactionException,
      x = .None ∨ x = .NotEnoughCash ∨ x = .OutOfGasBase ∨ x = .OutOfGas ∨
      x = .BlockGasLimitReached ∨ x = .OutOfStack ∨ x = .StackUnderflow ∨ x = .Unknown ∨
      x = .BadInstruction ∨ x = .BadJumpDestination ∨ x = .InvalidSignature ∨
      x = .InvalidNonce) := by
  constructor
  · intro x hx
    have key : ∀ e, throwOnExcepted x = some e →
        (executeTransaction c _t _state _call _gasAuto _secret).thrown = some e ∧
        (executeTransaction c _t _state _call _gasAuto _secret).client = c := by
      intro e he
      rw [executeTransaction_throw c _t _state _call _gasAuto _secret e (by rw [hx]; exact he)]
      exact ⟨rfl, rfl⟩
    refine ⟨?_, ?_, ?_, ?_, ?_, ?_⟩
    · intro h; subst h
      rw [(key _ rfl).1]; decide
    · rintro (h | h | h) <;> subst h <;> rw [(key _ rfl).1] <;> decide
    · rintro (h | h) <;> subst h <;> rw [(key _ rfl).1] <;> decide
    · rintro (h | h | h | h | h) <;> subst h <;> rw [(key _ rfl).1] <;> decide
    · intro h; subst h; rfl
    · intro h
      cases hx2 : throwOnExcepted x with
      | none => exact absurd ((throwOnExcepted_eq_none _).1 hx2) h
      | some e =>
        rw [(key e hx2).1]
        exact ⟨by simp, (key e hx2).2⟩
  · intro x
    cases x <;> simp

/-- On the sample client a submission with too little gas is reported as `OutOfGas`. -/
theorem failure_kind_mapping_witness :
    (executeTransaction sampleClient sampleCheapCall .live false false 9).thrown.map
      MixException.kind = some .OutOfGas :=
  ((failure_kind_mapping sampleClient sampleCheapCall .live false false 9).1
    .OutOfGasBase (by decide)).2.1 (Or.inl rfl)

theorem toUnsigned_lt (x : Int) : toUnsigned x < 2 ^ 32 := by
  unfold toUnsigned
  omega

theorem toUnsigned_succ_of_lt (h : Nat) (x : Int) (hlt : h < toUnsigned x) :
    toUnsigned ((h : Int) + 1) = h + 1 := by
  have := toUnsigned_lt x
  unfold toUnsigned at *
  omega

theorem toUnsigned_pred (n : Nat) (h0 : 0 < n) (h1 : n ≤ 2 ^ 32) :
    toUnsigned ((n : Int) - 1) = n - 1 := by
  unfold toUnsigned
  omega

theorem StdMap.find?_eq_some_iff {K V : Type} [DecidableEq K] (m : StdMap K V) (k : K) (v : V) :
    m.find? k = some v ↔ (k, v) ∈ m.entries := by
  unfold StdMap.find?
  have hnd := m.nodupKeys
  generalize m.entries = l at hnd
  induction l with
  | nil => simp
  | cons e l ih =>
    rw [List.map_cons, List.nodup_cons] at hnd
    by_cases h : e.1 = k
    · subst h
      simp only [List.find?_cons, decide_True, Option.map_some', Option.some.injEq,
        List.mem_cons]
      constructor
      · intro hv; left; rw [← hv]
      · rintro (hv | hv)
        · rw [← hv]
        · exact absurd (List.mem_map_of_mem Prod.fst hv) hnd.1
    · simp only [List.find?_cons, h, decide_False, List.mem_cons]
      have ih2 := ih hnd.2
      constructor
      · intro hv; right; exact ih2.1 hv
      · rintro (hv | hv)
        · exact absurd (congrArg Prod.fst hv).symm h
        · exact ih2.2 hv

theorem noteChanged_merge_and_clear_aux {E : Env} (c : MixClient E) (ids : List h256)
    (id : h256) (F : InstalledFilter E.LogFilter)
    (hF : (noteChanged c ids).m_filters.find? id = some F) : F.changes = [] := by
  rw [noteChanged_filter] at hF
  cases h : c.m_filters.find? id with
  | none => rw [h] at hF; simp at hF
  | some f =>
    rw [h] at hF
    simp only [Option.map_some', Option.some.injEq] at hF
    rw [← hF]

/-! ## The "collect watches" loop -/

theorem filterCatches_setClient {E : Env} (r : StateRef E.State) (c : MixClient E)
    (s s' : E.State) (f : InstalledFilter E.LogFilter) :
    filterCatches (r.setClient c s) s' f = filterCatches c s' f := by
  cases r <;> rfl

theorem filterCatches_iff {E : Env} (c : MixClient E) (s : E.State)
    (f : InstalledFilter E.LogFilter) :
    filterCatches c s f = true ↔
      (E.number c.m_bc < toUnsigned (E.latest f.filter) ∧
        E.filterMatches f.filter (lastReceipt E s) ≠ []) := by
  unfold filterCatches
  simp [List.length_eq_zero]

theorem collectWatches_watches {E : Env} (c : MixClient E) (s : E.State) :
    (collectWatches c s).1.m_watches = c.m_watches := rfl

theorem collectWatches_filter {E : Env} (c : MixClient E) (s : E.State) (id : h256) :
    (collectWatches c s).1.m_filters.find? id =
      (c.m_filters.find? id).map (fun f =>
        if filterCatches c s f then
          { f with
            changes := f.changes ++
              (E.filterMatches f.filter (lastReceipt E s)).map
                (fun l => LocalisedLogEntry.mk l (toUnsigned ((E.number c.m_bc : Int) + 1))) }
        else f) := by
  unfold collectWatches
  simp only [StdMap.find?_forEach]

theorem collectWatches_changed {E : Env} (c : MixClient E) (s : E.State) (id : h256) :
    id ∈ (collectWatches c s).2 ↔
      ((∃ f, c.m_filters.find? id = some f ∧ filterCatches c s f = true) ∨
        id = PendingChangedFilter) := by
  unfold collectWatches
  simp only [List.mem_append, List.mem_map, List.mem_filter, List.mem_singleton]
  constructor
  · rintro (⟨e, ⟨he, hc⟩, hid⟩ | h)
    · left
      refine ⟨e.2, ?_, hc⟩
      rw [StdMap.find?_eq_some_iff, ← hid]
      exact he
    · right; exact h
  · rintro (⟨f, hf, hc⟩ | h)
    · left
      exact ⟨(id, f), ⟨(StdMap.find?_eq_some_iff _ _ _).1 hf, hc⟩, rfl⟩
    · right; exact h

theorem executeTransaction_ok_excepted {E : Env} (c : MixClient E) (_t : Transaction)
    (_state : StateRef E.State) (_call _gasAuto : Bool) (_secret : Secret)
    (hok : (executeTransaction c _t _state _call _gasAuto _secret).thrown = none) :
    (debugRun c _t _state _gasAuto _secret).2.excepted = .None := by
  cases hx : throwOnExcepted (debugRun c _t _state _gasAuto _secret).2.excepted with
  | none => exact (throwOnExcepted_eq_none _).1 hx
  | some e =>
    rw [executeTransaction_throw c _t _state _call _gasAuto _secret e hx] at hok
    simp at hok

/-- The filters and watches after a successful submission: those the notifier leaves once
the "collect watches" loop has run on the committed state. -/
theorem executeTransaction_ok_notified {E : Env} (c : MixClient E) (_t : Transaction)
    (_state : StateRef E.State) (_gasAuto : Bool) (_secret : Secret)
    (hok : (executeTransaction c _t _state false _gasAuto _secret).thrown = none) :
    (executeTransaction c _t _state false _gasAuto _secret).client.m_watches =
      (noteChanged
        (collectWatches c ((executeTransaction c _t _state false _gasAuto _secret).target.get
          (executeTransaction c _t _state false _gasAuto _secret).client)).1
        (collectWatches c ((executeTransaction c _t _state false _gasAuto _secret).target.get
          (executeTransaction c _t _state false _gasAuto _secret).client)).2).m_watches ∧
    (executeTransaction c _t _state false _gasAuto _secret).client.m_filters =
      (noteChanged
        (collectWatches c ((executeTransaction c _t _state false _gasAuto _secret).target.get
          (executeTransaction c _t _state false _gasAuto _secret).client)).1
        (collectWatches c ((executeTransaction c _t _state false _gasAuto _secret).target.get
          (executeTransaction c _t _state false _gasAuto _secret).client)).2).m_filters := by
  have h := executeTransaction_ok_excepted c _t _state false _gasAuto _secret hok
  rw [executeTransaction_commit_target c _t _state _gasAuto _secret h]
  rw [executeTransaction_commit c _t _state _gasAuto _secret h] at hok ⊢
  simp only at hok ⊢
  split at hok
  · simp at hok
  · rename_i hif
    simp only [hif]
    cases _state <;> exact ⟨rfl, rfl⟩

/-! ## Claims on notification -/

/-- C10. Sentinel notification: `noteChanged(changedIds)` appends exactly one sentinel
marker, the special log entry with block number 0, to the change-list of each watch whose
bound id is in `changedIds` and has no registered filter, and leaves every watch whose
bound id is not in `changedIds` as it was.  So, with no filter stored under the sentinel
ids, `mine()` appends exactly one marker to each watch bound to the pending-changed or
the chain-changed id, and a non-call `executeTransaction` that throws nothing appends
exactly one marker to each watch bound to the pending-changed id. -/
theorem sentinel_notification {E : Env} (c : MixClient E) :
    (∀ (changedIds : List h256) (k : Nat) (w : ClientWatch),
      c.m_watches.find? k = some w → w.id ∈ changedIds → c.m_filters.find? w.id = none →
      (noteChanged c changedIds).m_watches.find? k =
        some { w with changes := w.changes ++ [⟨SpecialLogEntry, 0⟩] }) ∧
    (∀ (changedIds : List h256) (k : Nat) (w : ClientWatch),
      c.m_watches.find? k = some w → w.id ∉ changedIds →
      (noteChanged c changedIds).m_watches.find? k = some w) ∧
    (c.m_filters.find? PendingChangedFilter = none →
      c.m_filters.find? ChainChangedFilter = none →
      ∀ (k : Nat) (w : ClientWatch), c.m_watches.find? k = some w →
        w.id = PendingChangedFilter ∨ w.id = ChainChangedFilter →
        (mine c).m_watches.find? k =
          some { w with changes := w.changes ++ [⟨SpecialLogEntry, 0⟩] }) ∧
    (c.m_filters.find? PendingChangedFilter = none →
      c.m_filters.find? ChainChangedFilter = none →
      ∀ (_t : Transaction) (_state : StateRef E.State) (_gasAuto : Bool) (_secret : Secret),
        (executeTransaction c _t _state false _gasAuto _secret).thrown = none →
        ∀ (k : Nat) (w : ClientWatch), c.m_watches.find? k = some w →
          w.id = PendingChangedFilter →
          (executeTransaction c _t _state false _gasAuto _secret).client.m_watches.find? k =
            some { w with changes := w.changes ++ [⟨SpecialLogEntry, 0⟩] }) := by
  refine ⟨?_, ?_, ?_, ?_⟩
  · intro ids k w hw hid hF
    rw [noteChanged_watch, hw]
    simp [hid, hF]
  · intro ids k w hw hid
    rw [noteChanged_watch, hw]
    simp [hid]
  · intro hP hC k w hw hid
    unfold mine
    simp only
    rw [noteChanged_watch]
    simp only [hw, Option.map_some']
    have hmem : w.id ∈ [PendingChangedFilter, ChainChangedFilter] := by
      rcases hid with h | h <;> simp [h]
    have hnone : c.m_filters.find? w.id = none := by
      rcases hid with h | h
      · rw [h]; exact hP
      · rw [h]; exact hC
    simp [hmem, hnone]
  · intro hP _ _t _state _gasAuto _secret hok k w hw hid
    rw [(executeTransaction_ok_notified c _t _state _gasAuto _secret hok).1]
    rw [noteChanged_watch, collectWatches_watches, hw]
    have hmem : w.id ∈ (collectWatches c
        ((executeTransaction c _t _state false _gasAuto _secret).target.get
          (executeTransaction c _t _state false _gasAuto _secret).client)).2 :=
      (collectWatches_changed _ _ _).2 (Or.inr hid)
    have hnone : (collectWatches c
        ((executeTransaction c _t _state false _gasAuto _secret).target.get
          (executeTransaction c _t _state false _gasAuto _secret).client)).1.m_filters.find?
          w.id = none := by
      rw [collectWatches_filter, hid, hP]; rfl
    simp [hmem, hnone]

/-- On the sample client, which stores no filter under a sentinel id: `mine()` gives the
watch bound to the chain-changed id one marker, and a submission gives the watch bound to
the pending-changed id one marker. -/
theorem sentinel_notification_witness :
    (mine sampleClient).m_watches.find? 2 =
      some ⟨ChainChangedFilter, [⟨SpecialLogEntry, 0⟩]⟩ ∧
    (executeTransaction sampleClient sampleCall .live false false 9).client.m_watches.find? 1 =
      some ⟨PendingChangedFilter, [⟨SpecialLogEntry, 0⟩]⟩ :=
  ⟨(sentinel_notification sampleClient).2.2.1 (by decide) (by decide) 2
      ⟨ChainChangedFilter, []⟩ (by decide) (Or.inr rfl),
   (sentinel_notification sampleClient).2.2.2 (by decide) (by decide) sampleCall .live false 9
      (by decide) 1 ⟨PendingChangedFilter, []⟩ (by decide) rfl⟩

/-- C9, as the code has it.  Take a client that stores no filter under the
pending-changed id, and a non-call `executeTransaction` at chain height `h` that throws
nothing, with `s` the committed target state.  The bound of a filter is read as the code
compares it, converted to `unsigned`: a signed bound of -1 is 4294967295, and a bound
between 0 and `2 ^ 32` is itself.  Every watch bound to a registered filter `F` whose
bound so read is greater than `h` and whose match list on the last receipt of `s` is
`l1..ln`, non-empty, holds its old change-list, then the changes `F` had accumulated, then
`l1..ln` each tagged `h + 1`; a watch bound to a registered filter whose bound so read is
not greater than `h`, or whose match list is empty, is unchanged; every filter's
change-list is empty at the return; and the last receipt is the one at index `n - 1` of a
pending list of `n` entries. -/
theorem commit_pass_log_delivery {E : Env} (c : MixClient E) (_t : Transaction)
    (_state : StateRef E.State) (_gasAuto : Bool) (_secret : Secret)
    (hnone : c.m_filters.find? PendingChangedFilter = none)
    (hok : (executeTransaction c _t _state false _gasAuto _secret).thrown = none) :
    (∀ (k : Nat) (w : ClientWatch) (F : InstalledFilter E.LogFilter),
      c.m_watches.find? k = some w → c.m_filters.find? w.id = some F →
      E.number c.m_bc < toUnsigned (E.latest F.filter) →
      E.filterMatches F.filter (lastReceipt E
        ((executeTransaction c _t _state false _gasAuto _secret).target.get
          (executeTransaction c _t _state false _gasAuto _secret).client)) ≠ [] →
      (executeTransaction c _t _state false _gasAuto _secret).client.m_watches.find? k =
        some { w with
          changes := w.changes ++ F.changes ++
            (E.filterMatches F.filter (lastReceipt E
              ((executeTransaction c _t _state false _gasAuto _secret).target.get
                (executeTransaction c _t _state false _gasAuto _secret).client))).map
              (fun l => LocalisedLogEntry.mk l (E.number c.m_bc + 1)) }) ∧
    (∀ (k : Nat) (w : ClientWatch) (F : InstalledFilter E.LogFilter),
      c.m_watches.find? k = some w → c.m_filters.find? w.id = some F →
      (¬ E.number c.m_bc < toUnsigned (E.latest F.filter) ∨
        E.filterMatches F.filter (lastReceipt E
          ((executeTransaction c _t _state false _gasAuto _secret).target.get
            (executeTransaction c _t _state false _gasAuto _secret).client)) = []) →
      (executeTransaction c _t _state false _gasAuto _secret).client.m_watches.find? k =
        some w) ∧
    (∀ (id : h256) (F : InstalledFilter E.LogFilter),
      (executeTransaction c _t _state false _gasAuto _secret).client.m_filters.find? id =
        some F → F.changes = []) ∧
    (0 < E.pendingSize ((executeTransaction c _t _state false _gasAuto _secret).target.get
        (executeTransaction c _t _state false _gasAuto _secret).client) →
      E.pendingSize ((executeTransaction c _t _state false _gasAuto _secret).target.get
        (executeTransaction c _t _state false _gasAuto _secret).client) ≤ 2 ^ 32 →
      lastReceipt E ((executeTransaction c _t _state false _gasAuto _secret).target.get
        (executeTransaction c _t _state false _gasAuto _secret).client) =
      E.receipt ((executeTransaction c _t _state false _gasAuto _secret).target.get
        (executeTransaction c _t _state false _gasAuto _secret).client)
        (E.pendingSize ((executeTransaction c _t _state false _gasAuto _secret).target.get
          (executeTransaction c _t _state false _gasAuto _secret).client) - 1)) ∧
    (∀ x : Int, (0 ≤ x → x < 2 ^ 32 → (toUnsigned x : Int) = x) ∧
      toUnsigned (-1) = 4294967295) := by
  have hn := executeTransaction_ok_notified c _t _state _gasAuto _secret hok
  generalize (executeTransaction c _t _state false _gasAuto _secret).target.get
    (executeTransaction c _t _state false _gasAuto _secret).client = s at hn ⊢
  refine ⟨?_, ?_, ?_, ?_, ?_⟩
  · intro k w F hw hF hlt hm
    have hc : filterCatches c s F = true := (filterCatches_iff c s F).2 ⟨hlt, hm⟩
    have hmem : w.id ∈ (collectWatches c s).2 :=
      (collectWatches_changed _ _ _).2 (Or.inl ⟨F, hF, hc⟩)
    rw [hn.1, noteChanged_watch, collectWatches_watches, hw]
    simp only [Option.map_some', hmem, if_true, collectWatches_filter, hF, hc,
      toUnsigned_succ_of_lt _ _ hlt, List.append_assoc]
  · intro k w F hw hF hno
    have hc : filterCatches c s F = false := by
      rw [Bool.eq_false_iff]
      intro hc
      have := (filterCatches_iff c s F).1 hc
      rcases hno with h | h
      · exact h this.1
      · exact this.2 h
    have hid : w.id ≠ PendingChangedFilter := by
      intro h
      rw [h, hnone] at hF
      cases hF
    have hmem : w.id ∉ (collectWatches c s).2 := by
      intro hmem
      rcases (collectWatches_changed _ _ _).1 hmem with ⟨f, hf, hcf⟩ | h
      · rw [hF] at hf
        cases hf
        rw [hc] at hcf
        exact Bool.false_ne_true hcf
      · exact hid h
    rw [hn.1, noteChanged_watch, collectWatches_watches, hw]
    simp [hmem]
  · intro id F hF
    rw [hn.2] at hF
    exact (noteChanged_merge_and_clear_aux _ _ id F hF)
  · intro h0 h1
    unfold lastReceipt
    rw [toUnsigned_pred _ h0 h1]
  · intro x
    refine ⟨?_, by decide⟩
    intro h0 h1
    unfold toUnsigned
    omega

/-- A submission to address 42 on the sample client at height 5, which stores no filter
under the pending-changed id: the filter stored under id 77 has bound 10 and catches the
log of address 42, and the watch bound to it receives the filter's accumulated change
followed by the new entry tagged 6. -/
theorem commit_pass_log_delivery_witness :
    (executeTransaction sampleClient sampleCall .live false false 9).client.m_watches.find? 0 =
      some ⟨77, [sampleChange, ⟨⟨42, [100], [5]⟩, 6⟩]⟩ :=
  (commit_pass_log_delivery sampleClient sampleCall .live false 9 (by decide) (by decide)).1 0
    ⟨77, []⟩ ⟨(10, 42), 1, [sampleChange]⟩ (by decide) (by decide) (by decide) (by decide)

/-- C9 fails as stated.  The client `openBoundClient`, at chain height 5, stores no filter
under a sentinel id and one filter under id 77 whose signed bound is -1, which is not
greater than 5; the watch under key 0 is bound to it.  A submission to address 42 throws
nothing; the code compares the bound as the `unsigned` 4294967295, the filter catches the
log, and afterwards the watch holds the new entry tagged 6: the filter has contributed
to a watch. -/
theorem commit_pass_log_delivery_counterexample :
    (executeTransaction openBoundClient sampleCall .live false false 9).thrown = none ∧
    openBoundClient.m_filters.find? PendingChangedFilter = none ∧
    openBoundClient.m_filters.find? ChainChangedFilter = none ∧
    openBoundClient.m_filters.find? 77 = some ⟨(-1, 42), 1, []⟩ ∧
    sampleEnv.latest ((-1, 42) : Int × Address) = -1 ∧
    ¬ ((sampleEnv.number openBoundClient.m_bc : Int) <
        sampleEnv.latest ((-1, 42) : Int × Address)) ∧
    openBoundClient.m_watches.find? 0 = some ⟨77, []⟩ ∧
    (executeTransaction openBoundClient sampleCall .live false false 9).client.m_watches.find? 0 =
      some ⟨77, [⟨⟨42, [100], [5]⟩, 6⟩]⟩ ∧
    (executeTransaction openBoundClient sampleCall .live false false 9).client.m_watches.find? 0 ≠
      openBoundClient.m_watches.find? 0 := by
  decide

/-! ## The trace pass -/

theorem runTrace_nil : runTrace [] = TraceState.init := rfl

theorem runTrace_concat (ops : List OnOpCall) (o : OnOpCall) :
    runTrace (ops ++ [o]) = onOp (runTrace ops) o := by
  unfold runTrace
  rw [List.foldl_append]
  rfl

theorem onOpCode_frame (s : TraceState) (ext : ExtVM) :
    (onOpCode s ext).machineStates = s.machineStates ∧ (onOpCode s ext).levels = s.levels ∧
    (onOpCode s ext).data = s.data ∧ (onOpCode s ext).dataIndexes = s.dataIndexes ∧
    (onOpCode s ext).lastData = s.lastData ∧ (onOpCode s ext).dataIndex = s.dataIndex := by
  unfold onOpCode
  split
  · split <;> exact ⟨rfl, rfl, rfl, rfl, rfl, rfl⟩
  · exact ⟨rfl, rfl, rfl, rfl, rfl, rfl⟩

theorem onOpData_frame (s : TraceState) (ext : ExtVM) :
    (onOpData s ext).machineStates = s.machineStates ∧ (onOpData s ext).levels = s.levels ∧
    (onOpData s ext).codes = s.codes ∧ (onOpData s ext).codeIndexes = s.codeIndexes ∧
    (onOpData s ext).lastCode = s.lastCode ∧ (onOpData s ext).codeIndex = s.codeIndex := by
  unfold onOpData
  split
  · split <;> exact ⟨rfl, rfl, rfl, rfl, rfl, rfl⟩
  · exact ⟨rfl, rfl, rfl, rfl, rfl, rfl⟩

theorem onOpLevels_frame (s : TraceState) (ext : ExtVM) :
    (onOpLevels s ext).machineStates = s.machineStates ∧
    (onOpLevels s ext).codes = s.codes ∧ (onOpLevels s ext).codeIndexes = s.codeIndexes ∧
    (onOpLevels s ext).lastCode = s.lastCode ∧ (onOpLevels s ext).codeIndex = s.codeIndex ∧
    (onOpLevels s ext).data = s.data ∧ (onOpLevels s ext).dataIndexes = s.dataIndexes ∧
    (onOpLevels s ext).lastData = s.lastData ∧ (onOpLevels s ext).dataIndex = s.dataIndex := by
  unfold onOpLevels
  split <;> exact ⟨rfl, rfl, rfl, rfl, rfl, rfl, rfl, rfl, rfl⟩

/-- One observer call appends one record, which snapshots the levels and the two indices
the call leaves behind. -/
theorem onOp_machineStates (s : TraceState) (o : OnOpCall) :
    ∃ m : MachineState, (onOp s o).machineStates = s.machineStates ++ [m] ∧
      m.levels = (onOp s o).levels ∧ m.codeIndex = (onOp s o).codeIndex ∧
      m.dataIndex = (onOp s o).dataIndex := by
  refine ⟨⟨o.steps, o.vm.curPC, o.inst, o.newMemSize, o.vm.gas, o.vm.stack, o.vm.memory,
    o.gasCost, o.ext.storage, (onOp s o).levels, (onOp s o).codeIndex,
    (onOp s o).dataIndex⟩, ?_, rfl, rfl, rfl⟩
  show (onOpLevels (onOpData (onOpCode s o.ext) o.ext) o.ext).machineStates ++ _ = _
  rw [(onOpLevels_frame _ _).1, (onOpData_frame _ _).1, (onOpCode_frame _ _).1]
  rfl

theorem onOp_levels (s : TraceState) (o : OnOpCall) :
    (onOp s o).levels =
      if s.levels.length < o.ext.depth then
        s.levels ++ [toUnsigned ((s.machineStates.length : Int) - 1)]
      else s.levels.take o.ext.depth := by
  show (onOpLevels (onOpData (onOpCode s o.ext) o.ext) o.ext).levels = _
  unfold onOpLevels
  rw [(onOpData_frame _ _).1, (onOpCode_frame _ _).1, (onOpData_frame _ _).2.1,
    (onOpCode_frame _ _).2.1]
  split <;> rfl

theorem runTrace_length (ops : List OnOpCall) :
    (runTrace ops).machineStates.length = ops.length := by
  induction ops using List.reverseRecOn with
  | nil => rfl
  | append_singleton ops o ih =>
    rw [runTrace_concat]
    obtain ⟨m, hm, -⟩ := onOp_machineStates (runTrace ops) o
    rw [hm, List.length_append, List.length_append, ih]
    rfl

/-- The records of a trace are stable: a longer trace keeps those of a shorter one. -/
theorem runTrace_machineStates_concat (ops : List OnOpCall) (o : OnOpCall) :
    ∃ m : MachineState,
      (runTrace (ops ++ [o])).machineStates = (runTrace ops).machineStates ++ [m] ∧
      m.levels = (runTrace (ops ++ [o])).levels ∧
      m.codeIndex = (runTrace (ops ++ [o])).codeIndex ∧
      m.dataIndex = (runTrace (ops ++ [o])).dataIndex := by
  rw [runTrace_concat]
  exact onOp_machineStates _ _

/-- The captured `levels` is the levels of the record written last. -/
theorem runTrace_levels_last (ops : List OnOpCall) :
    (ops = [] → (runTrace ops).levels = []) ∧
    (∀ (n : Nat) (m : MachineState), ops.length = n + 1 →
      (runTrace ops).machineStates[n]? = some m → (runTrace ops).levels = m.levels) := by
  constructor
  · intro h; subst h; rfl
  · intro n m hn hm
    induction ops using List.reverseRecOn with
    | nil => simp at hn
    | append_singleton ops o _ =>
      obtain ⟨m', hms, hl, -⟩ := runTrace_machineStates_concat ops o
      have hlen : (runTrace ops).machineStates.length = n := by
        rw [runTrace_length]
        simpa using hn
      rw [hms, ← hlen, List.getElem?_concat_length] at hm
      cases hm
      exact hl.symm

/-- How the levels of a record follow from those of the record before it. -/
theorem runTrace_levels_step (ops : List OnOpCall) :
    (∀ (o : OnOpCall) (m : MachineState), ops[0]? = some o →
      (runTrace ops).machineStates[0]? = some m →
      (0 < o.ext.depth → m.levels = [4294967295]) ∧ (o.ext.depth = 0 → m.levels = [])) ∧
    (∀ (i : Nat) (o : OnOpCall) (m m' : MachineState), ops[i + 1]? = some o →
      (runTrace ops).machineStates[i]? = some m →
      (runTrace ops).machineStates[i + 1]? = some m' →
      (m.levels.length < o.ext.depth → m'.levels = m.levels ++ [toUnsigned (i : Int)]) ∧
      (o.ext.depth ≤ m.levels.length → m'.levels = m.levels.take o.ext.depth)) := by
  induction ops using List.reverseRecOn with
  | nil => simp
  | append_singleton ops o' ih =>
    obtain ⟨mn, hms, hl, -⟩ := runTrace_machineStates_concat ops o'
    have hlen := runTrace_length ops
    have hlev : mn.levels =
        if (runTrace ops).levels.length < o'.ext.depth then
          (runTrace ops).levels ++ [toUnsigned (((runTrace ops).machineStates.length : Int) - 1)]
        else (runTrace ops).levels.take o'.ext.depth :=
      hl.trans (by rw [runTrace_concat]; exact onOp_levels _ _)
    constructor
    · intro o m ho hm
      by_cases h0 : ops = []
      · subst h0
        simp only [List.nil_append, List.getElem?_cons_zero, Option.some.injEq] at ho
        subst ho
        rw [hms] at hm
        simp only [runTrace_nil, TraceState.init, List.nil_append, List.getElem?_cons_zero,
          Option.some.injEq] at hm
        subst hm
        rw [hlev]
        simp only [runTrace_nil, TraceState.init, List.length_nil, List.nil_append]
        constructor
        · intro hd; simp only [hd, if_true]; rfl
        · intro hd; simp [hd]
      · have hpos : 0 < ops.length := List.length_pos.2 h0
        rw [List.getElem?_append_left hpos] at ho
        rw [hms, List.getElem?_append_left (by rw [hlen]; exact hpos)] at hm
        exact ih.1 o m ho hm
    · intro i o m m' ho hm hm'
      by_cases hi : i + 1 < ops.length
      · rw [List.getElem?_append_left hi] at ho
        rw [hms, List.getElem?_append_left (by rw [hlen]; omega)] at hm
        rw [hms, List.getElem?_append_left (by rw [hlen]; exact hi)] at hm'
        exact ih.2 i o m m' ho hm hm'
      · have hlt : i + 1 < (ops ++ [o']).length := (List.getElem?_eq_some.1 ho).1
        rw [List.length_append, List.length_singleton] at hlt
        have hi2 : ops.length = i + 1 := by omega
        rw [← hi2, List.getElem?_concat_length] at ho
        cases ho
        rw [hms, List.getElem?_append_left (by rw [hlen]; omega)] at hm
        rw [hms, ← hi2, ← hlen, List.getElem?_concat_length] at hm'
        cases hm'
        have hlast := (runTrace_levels_last ops).2 i m hi2 hm
        rw [hlev, hlast, hlen, hi2]
        have hcast : (((i + 1 : Nat) : Int) - 1) = (i : Int) := by push_cast; ring
        rw [hcast]
        constructor
        · intro hd; simp [hd]
        · intro hd; simp [Nat.not_lt.2 hd]

/-- C4. Levels track call depth: in a trace pass whose first step has call depth at most
1 and whose call depth rises by at most one from one observed step to the next, one
record is written per step and the levels of every record has as many entries as the
call depth reported for that step.  In every trace pass, a step whose depth exceeds the
number of boundaries of the record before it appends exactly one boundary and keeps the
earlier ones, and a step whose depth is at most that number keeps exactly the first
`depth` boundaries; the first step starts from no boundary. -/
theorem levels_track_depth (ops : List OnOpCall)
    (hfirst : ∀ o : OnOpCall, ops[0]? = some o → o.ext.depth ≤ 1)
    (hrise : ∀ (i : Nat) (a b : OnOpCall), ops[i]? = some a → ops[i + 1]? = some b →
      b.ext.depth ≤ a.ext.depth + 1) :
    (runTrace ops).machineStates.length = ops.length ∧
    (∀ (i : Nat) (o : OnOpCall) (m : MachineState), ops[i]? = some o →
      (runTrace ops).machineStates[i]? = some m → m.levels.length = o.ext.depth) ∧
    (∀ (o : OnOpCall) (m : MachineState), ops[0]? = some o →
      (runTrace ops).machineStates[0]? = some m →
      (0 < o.ext.depth → m.levels = [4294967295]) ∧ (o.ext.depth = 0 → m.levels = [])) ∧
    (∀ (i : Nat) (o : OnOpCall) (m m' : MachineState), ops[i + 1]? = some o →
      (runTrace ops).machineStates[i]? = some m →
      (runTrace ops).machineStates[i + 1]? = some m' →
      (m.levels.length < o.ext.depth → m'.levels = m.levels ++ [toUnsigned (i : Int)]) ∧
      (o.ext.depth ≤ m.levels.length → m'.levels = m.levels.take o.ext.depth)) := by
  have hstep := runTrace_levels_step ops
  have hlen := runTrace_length ops
  refine ⟨hlen, ?_, hstep.1, hstep.2⟩
  intro i
  induction i with
  | zero =>
    intro o m ho hm
    have h1 := hfirst o ho
    have h2 := hstep.1 o m ho hm
    by_cases hd : o.ext.depth = 0
    · rw [h2.2 hd, hd]; rfl
    · have hd1 : o.ext.depth = 1 := by omega
      rw [h2.1 (by omega), hd1]; rfl
  | succ i ih =>
    intro o m' ho hm'
    have hi : i + 1 < ops.length := (List.getElem?_eq_some.1 ho).1
    have hio : i < ops.length := by omega
    have him : i < (runTrace ops).machineStates.length := by rw [hlen]; exact hio
    have hoi : ops[i]? = some ops[i] := List.getElem?_eq_getElem hio
    have hmi : (runTrace ops).machineStates[i]? = some (runTrace ops).machineStates[i] :=
      List.getElem?_eq_getElem him
    have hprev := ih _ _ hoi hmi
    have hr := hrise i _ o hoi ho
    have h2 := hstep.2 i o _ m' ho hmi hm'
    by_cases hd : (runTrace ops).machineStates[i].levels.length < o.ext.depth
    · rw [h2.1 hd, List.length_append, List.length_singleton]
      omega
    · rw [h2.2 (by omega), List.length_take]
      omega

theorem sampleOps_rise (i : Nat) (a b : OnOpCall) (ha : sampleOps[i]? = some a)
    (hb : sampleOps[i + 1]? = some b) : b.ext.depth ≤ a.ext.depth + 1 := by
  have hi : i + 1 < sampleOps.length := (List.getElem?_eq_some.1 hb).1
  have hi3 : i < 3 := by simp [sampleOps] at hi; omega
  interval_cases i <;> simp [sampleOps] at ha hb <;> subst ha <;> subst hb <;> decide

/-- The four sample steps, at depths 0, 1, 1, 0: every record has as many boundaries as
its depth; the second record holds the boundary 0 and the fourth none. -/
theorem levels_track_depth_witness :
    (∀ (i : Nat) (o : OnOpCall) (m : MachineState), sampleOps[i]? = some o →
      (runTrace sampleOps).machineStates[i]? = some m → m.levels.length = o.ext.depth) ∧
    (runTrace sampleOps).machineStates.map (fun m => m.levels) = [[], [0], [0], []] :=
  ⟨(levels_track_depth sampleOps (by decide) sampleOps_rise).2.1, by decide⟩

/-! ## The de-duplication tables -/

theorem lookup_cons_self_nat (p v : Nat) (l : List (Nat × Nat)) :
    ((p, v) :: l).lookup p = some v := by
  simp [List.lookup_cons]

theorem lookup_cons_ne_nat (p q v : Nat) (l : List (Nat × Nat)) (h : q ≠ p) :
    ((p, v) :: l).lookup q = l.lookup q := by
  have : (q == p) = false := by simpa using h
  simp [List.lookup_cons, this]

theorem find?_concat_of_found {α : Type} (l : List (Nat × α)) (e : Nat × α) (q : Nat)
    (h : l.find? (fun x => decide (x.1 = q)) ≠ none) :
    (l ++ [e]).find? (fun x => decide (x.1 = q)) = l.find? (fun x => decide (x.1 = q)) := by
  rw [List.find?_append]
  cases hf : l.find? (fun x => decide (x.1 = q)) with
  | none => exact absurd hf h
  | some x => rfl

theorem find?_concat_of_ne {α : Type} (l : List (Nat × α)) (e : Nat × α) (q : Nat)
    (h : e.1 ≠ q) :
    (l ++ [e]).find? (fun x => decide (x.1 = q)) = l.find? (fun x => decide (x.1 = q)) := by
  rw [List.find?_append]
  have : [e].find? (fun x => decide (x.1 = q)) = none := by simp [List.find?_cons, h]
  rw [this]
  cases l.find? (fun x => decide (x.1 = q)) <;> rfl

theorem find?_concat_of_fresh {α : Type} (l : List (Nat × α)) (e : Nat × α)
    (h : l.find? (fun x => decide (x.1 = e.1)) = none) :
    (l ++ [e]).find? (fun x => decide (x.1 = e.1)) = some e := by
  rw [List.find?_append, h]
  simp [List.find?_cons]

theorem DedupTable.step_found {α : Type} (t : DedupTable α) (seen : List (Nat × α))
    (recorded : List Nat) (hinv : t.Inv seen recorded) (p : Nat) (a : α) (j : Nat)
    (hj : t.indexes.lookup p = some j) :
    t.step p a = { t with index := j, last := some p } := by
  unfold DedupTable.step
  split
  · simp only [hj]
  · rename_i hc
    have hl : t.last = some p := by
      by_contra hne
      exact hc (Or.inr hne)
    have := hinv.current p hl
    rw [hj] at this
    cases this
    cases t
    simp only at hl
    subst hl
    rfl

theorem DedupTable.step_fresh {α : Type} (t : DedupTable α) (seen : List (Nat × α))
    (recorded : List Nat) (hinv : t.Inv seen recorded) (p : Nat) (a : α)
    (hj : t.indexes.lookup p = none) :
    t.step p a =
      { items := t.items ++ [a]
        indexes := (p, t.items.length) :: t.indexes
        last := some p
        index := t.items.length } := by
  unfold DedupTable.step
  split
  · simp only [hj]
  · rename_i hc
    have hl : t.last = some p := by
      by_contra hne
      exact hc (Or.inr hne)
    have := hinv.current p hl
    rw [hj] at this
    cases this

theorem DedupTable.Inv.init {α : Type} :
    (⟨[], [], none, 0⟩ : DedupTable α).Inv [] [] where
  keys := by intro p; simp
  entry := by intro p i h; simp at h
  bound := by intro p i h; simp at h
  inj := by intro p q i h; simp at h
  current := by intro p h; simp at h
  length_eq := rfl
  recorded_eq := by intro k e r h; simp at h

/-- The invariant is kept by a step, whose record takes the index the step leaves. -/
theorem DedupTable.Inv.step {α : Type} (t : DedupTable α) (seen : List (Nat × α))
    (recorded : List Nat) (hinv : t.Inv seen recorded) (p : Nat) (a : α) :
    (t.step p a).Inv (seen ++ [(p, a)]) (recorded ++ [(t.step p a).index]) := by
  cases hj : t.indexes.lookup p with
  | some j =>
    rw [DedupTable.step_found t seen recorded hinv p a j hj]
    have hseen : seen.find? (fun e => decide (e.1 = p)) ≠ none := by
      intro h
      rw [← hinv.keys p, hj] at h
      cases h
    have hfind : ∀ q, t.indexes.lookup q ≠ none →
        (seen ++ [(p, a)]).find? (fun e => decide (e.1 = q)) =
          seen.find? (fun e => decide (e.1 = q)) := by
      intro q hq
      apply find?_concat_of_found
      intro h
      exact hq ((hinv.keys q).2 h)
    refine ⟨?_, ?_, hinv.bound, hinv.inj, ?_, ?_, ?_⟩
    · intro q
      show t.indexes.lookup q = none ↔ _
      by_cases hq : q = p
      · subst hq
        rw [find?_concat_of_found _ _ _ hseen]
        exact hinv.keys q
      · rw [find?_concat_of_ne _ _ _ (fun h => hq h.symm)]
        exact hinv.keys q
    · intro q i hi
      show t.items[i]? = _
      rw [hfind q (by show t.indexes.lookup q ≠ none; rw [hi]; simp)]
      exact hinv.entry q i hi
    · intro q hq
      simp only [Option.some.injEq] at hq
      subst hq
      exact hj
    · simp [hinv.length_eq]
    · intro k e r he hr
      show t.indexes.lookup e.1 = some r
      by_cases hk : k < seen.length
      · rw [List.getElem?_append_left hk] at he
        rw [List.getElem?_append_left (by rw [hinv.length_eq]; exact hk)] at hr
        exact hinv.recorded_eq k e r he hr
      · have hlt : k < (seen ++ [(p, a)]).length := (List.getElem?_eq_some.1 he).1
        rw [List.length_append, List.length_singleton] at hlt
        have hk2 : k = seen.length := by omega
        subst hk2
        rw [List.getElem?_concat_length] at he
        rw [← hinv.length_eq, List.getElem?_concat_length] at hr
        cases he
        cases hr
        exact hj
  | none =>
    rw [DedupTable.step_fresh t seen recorded hinv p a hj]
    have hseen : seen.find? (fun e => decide (e.1 = p)) = none := (hinv.keys p).1 hj
    refine ⟨?_, ?_, ?_, ?_, ?_, ?_, ?_⟩
    · intro q
      show ((p, t.items.length) :: t.indexes).lookup q = none ↔ _
      by_cases hq : q = p
      · subst hq
        rw [lookup_cons_self_nat, find?_concat_of_fresh seen (q, a) hseen]
        simp
      · rw [lookup_cons_ne_nat _ _ _ _ hq, find?_concat_of_ne _ _ _ (fun h => hq h.symm)]
        exact hinv.keys q
    · intro q i hi
      show (t.items ++ [a])[i]? = _
      change ((p, t.items.length) :: t.indexes).lookup q = some i at hi
      by_cases hq : q = p
      · subst hq
        rw [lookup_cons_self_nat] at hi
        cases hi
        rw [List.getElem?_concat_length, find?_concat_of_fresh seen (q, a) hseen]
        rfl
      · rw [lookup_cons_ne_nat _ _ _ _ hq] at hi
        rw [List.getElem?_append_left (hinv.bound q i hi),
          find?_concat_of_ne _ _ _ (fun h => hq h.symm)]
        exact hinv.entry q i hi
    · intro q i hi
      show i < (t.items ++ [a]).length
      change ((p, t.items.length) :: t.indexes).lookup q = some i at hi
      rw [List.length_append, List.length_singleton]
      by_cases hq : q = p
      · subst hq
        rw [lookup_cons_self_nat] at hi
        cases hi
        omega
      · rw [lookup_cons_ne_nat _ _ _ _ hq] at hi
        have := hinv.bound q i hi
        omega
    · intro q q' i hi hi'
      change ((p, t.items.length) :: t.indexes).lookup q = some i at hi
      change ((p, t.items.length) :: t.indexes).lookup q' = some i at hi'
      by_cases hq : q = p
      · by_cases hq' : q' = p
        · rw [hq, hq']
        · subst hq
          rw [lookup_cons_self_nat] at hi
          cases hi
          rw [lookup_cons_ne_nat _ _ _ _ hq'] at hi'
          exact absurd (hinv.bound q' _ hi') (Nat.lt_irrefl _)
      · rw [lookup_cons_ne_nat _ _ _ _ hq] at hi
        by_cases hq' : q' = p
        · subst hq'
          rw [lookup_cons_self_nat] at hi'
          cases hi'
          exact absurd (hinv.bound q _ hi) (Nat.lt_irrefl _)
        · rw [lookup_cons_ne_nat _ _ _ _ hq'] at hi'
          exact hinv.inj q q' i hi hi'
    · intro q hq
      simp only [Option.some.injEq] at hq
      subst hq
      exact lookup_cons_self_nat _ _ _
    · simp [hinv.length_eq]
    · intro k e r he hr
      show ((p, t.items.length) :: t.indexes).lookup e.1 = some r
      by_cases hk : k < seen.length
      · rw [List.getElem?_append_left hk] at he
        rw [List.getElem?_append_left (by rw [hinv.length_eq]; exact hk)] at hr
        have hold := hinv.recorded_eq k e r he hr
        have hne : e.1 ≠ p := by
          intro h
          rw [h, hj] at hold
          cases hold
        rw [lookup_cons_ne_nat _ _ _ _ hne]
        exact hold
      · have hlt : k < (seen ++ [(p, a)]).length := (List.getElem?_eq_some.1 he).1
        rw [List.length_append, List.length_singleton] at hlt
        have hk2 : k = seen.length := by omega
        subst hk2
        rw [List.getElem?_concat_length] at he
        rw [← hinv.length_eq, List.getElem?_concat_length] at hr
        cases he
        cases hr
        exact lookup_cons_self_nat _ _ _

theorem codeTable_onOpCode (s : TraceState) (ext : ExtVM) :
    codeTable (onOpCode s ext) =
      (codeTable s).step ext.codePtr ⟨ext.myAddress, ext.code⟩ := by
  unfold onOpCode DedupTable.step codeTable
  simp only
  split
  · split <;> rfl
  · rfl

theorem dataTable_onOpData (s : TraceState) (ext : ExtVM) :
    dataTable (onOpData s ext) = (dataTable s).step ext.dataPtr ext.data := by
  unfold onOpData DedupTable.step dataTable
  simp only
  split
  · split <;> rfl
  · rfl

theorem codeTable_onOp (s : TraceState) (o : OnOpCall) :
    codeTable (onOp s o) = (codeTable s).step (codeKey o).1 (codeKey o).2 := by
  show _ = (codeTable s).step o.ext.codePtr ⟨o.ext.myAddress, o.ext.code⟩
  rw [← codeTable_onOpCode]
  show codeTable (onOpLevels (onOpData (onOpCode s o.ext) o.ext) o.ext) = _
  have h1 := onOpLevels_frame (onOpData (onOpCode s o.ext) o.ext) o.ext
  have h2 := onOpData_frame (onOpCode s o.ext) o.ext
  unfold codeTable
  rw [h1.2.1, h1.2.2.1, h1.2.2.2.1, h1.2.2.2.2.1, h2.2.2.1, h2.2.2.2.1, h2.2.2.2.2.1,
    h2.2.2.2.2.2]

theorem dataTable_onOp (s : TraceState) (o : OnOpCall) :
    dataTable (onOp s o) = (dataTable s).step (dataKey o).1 (dataKey o).2 := by
  have h0 := onOpCode_frame s o.ext
  have hd : dataTable (onOpCode s o.ext) = dataTable s := by
    unfold dataTable
    rw [h0.2.2.1, h0.2.2.2.1, h0.2.2.2.2.1, h0.2.2.2.2.2]
  show _ = (dataTable s).step o.ext.dataPtr o.ext.data
  rw [← hd, ← dataTable_onOpData]
  show dataTable (onOpLevels (onOpData (onOpCode s o.ext) o.ext) o.ext) = _
  have h1 := onOpLevels_frame (onOpData (onOpCode s o.ext) o.ext) o.ext
  unfold dataTable
  rw [h1.2.2.2.2.2.1, h1.2.2.2.2.2.2.1, h1.2.2.2.2.2.2.2.1, h1.2.2.2.2.2.2.2.2]

/-- The invariant of the code table along a trace pass. -/
theorem runTrace_codeTable_inv (ops : List OnOpCall) :
    (codeTable (runTrace ops)).Inv (ops.map codeKey)
      ((runTrace ops).machineStates.map (fun m => m.codeIndex)) := by
  induction ops using List.reverseRecOn with
  | nil => exact DedupTable.Inv.init
  | append_singleton ops o ih =>
    obtain ⟨m, hms, -, hc, -⟩ := runTrace_machineStates_concat ops o
    have hstep := DedupTable.Inv.step _ _ _ ih (codeKey o).1 (codeKey o).2
    rw [← codeTable_onOp, ← runTrace_concat] at hstep
    rw [hms, List.map_append, List.map_append, List.map_singleton, List.map_singleton, hc]
    exact hstep

/-- The invariant of the data table along a trace pass. -/
theorem runTrace_dataTable_inv (ops : List OnOpCall) :
    (dataTable (runTrace ops)).Inv (ops.map dataKey)
      ((runTrace ops).machineStates.map (fun m => m.dataIndex)) := by
  induction ops using List.reverseRecOn with
  | nil => exact DedupTable.Inv.init
  | append_singleton ops o ih =>
    obtain ⟨m, hms, -, -, hd⟩ := runTrace_machineStates_concat ops o
    have hstep := DedupTable.Inv.step _ _ _ ih (dataKey o).1 (dataKey o).2
    rw [← dataTable_onOp, ← runTrace_concat] at hstep
    rw [hms, List.map_append, List.map_append, List.map_singleton, List.map_singleton, hd]
    exact hstep

/-- What the invariant says of two steps and of the entry a step refers to. -/
theorem DedupTable.Inv.identity {α : Type} (t : DedupTable α) (seen : List (Nat × α))
    (recorded : List Nat) (hinv : t.Inv seen recorded) :
    (∀ (i j : Nat) (ei ej : Nat × α) (ri rj : Nat), seen[i]? = some ei → seen[j]? = some ej →
      recorded[i]? = some ri → recorded[j]? = some rj → (ri = rj ↔ ei.1 = ej.1)) ∧
    (∀ (i : Nat) (e : Nat × α) (r : Nat), seen[i]? = some e → recorded[i]? = some r →
      r < t.items.length ∧
      ∃ e0, seen.find? (fun x => decide (x.1 = e.1)) = some e0 ∧ t.items[r]? = some e0.2) := by
  constructor
  · intro i j ei ej ri rj hei hej hri hrj
    have h1 := hinv.recorded_eq i ei ri hei hri
    have h2 := hinv.recorded_eq j ej rj hej hrj
    constructor
    · intro h
      subst h
      exact hinv.inj _ _ _ h1 h2
    · intro h
      rw [h, h2] at h1
      cases h1
      rfl
  · intro i e r he hr
    have h1 := hinv.recorded_eq i e r he hr
    refine ⟨hinv.bound _ _ h1, ?_⟩
    have h2 := hinv.entry _ _ h1
    cases hf : seen.find? (fun x => decide (x.1 = e.1)) with
    | none =>
      rw [← hinv.keys, h1] at hf
      cases hf
    | some e0 =>
      rw [hf] at h2
      exact ⟨e0, rfl, h2⟩

theorem DedupTable.step_items {α : Type} (t : DedupTable α) (p : Nat) (a : α) :
    ∃ l, (t.step p a).items = t.items ++ l := by
  unfold DedupTable.step
  split
  · split
    · exact ⟨[], (List.append_nil _).symm⟩
    · exact ⟨[a], rfl⟩
  · exact ⟨[], (List.append_nil _).symm⟩

/-- Both tables only grow by appending. -/
theorem runTrace_tables_grow (ops more : List OnOpCall) :
    ∃ cs ds, (runTrace (ops ++ more)).codes = (runTrace ops).codes ++ cs ∧
      (runTrace (ops ++ more)).data = (runTrace ops).data ++ ds := by
  induction more using List.reverseRecOn with
  | nil => exact ⟨[], [], by simp, by simp⟩
  | append_singleton more o ih =>
    obtain ⟨cs, ds, hc, hd⟩ := ih
    obtain ⟨lc, hlc⟩ := DedupTable.step_items (codeTable (runTrace (ops ++ more)))
      (codeKey o).1 (codeKey o).2
    obtain ⟨ld, hld⟩ := DedupTable.step_items (dataTable (runTrace (ops ++ more)))
      (dataKey o).1 (dataKey o).2
    rw [← codeTable_onOp, ← runTrace_concat] at hlc
    rw [← dataTable_onOp, ← runTrace_concat] at hld
    refine ⟨cs ++ lc, ds ++ ld, ?_, ?_⟩
    · rw [← List.append_assoc ops, ← List.append_assoc, ← hc]; exact hlc
    · rw [← List.append_assoc ops, ← List.append_assoc, ← hd]; exact hld

/-- C5. De-duplication identity: within one trace pass, any two recorded steps have equal
code-table indices exactly when the code buffers reported for them are the same buffer,
and equal data-table indices exactly when their data buffers are the same buffer; the
code index and the data index of every step are positions of the final tables, and the
entry there is the one offered by the first step that reported the buffer; and the
tables of a longer pass extend those of a shorter one by appending. -/
theorem dedup_identity (ops : List OnOpCall) :
    (runTrace ops).machineStates.length = ops.length ∧
    (∀ (i j : Nat) (oi oj : OnOpCall) (mi mj : MachineState),
      ops[i]? = some oi → ops[j]? = some oj →
      (runTrace ops).machineStates[i]? = some mi →
      (runTrace ops).machineStates[j]? = some mj →
      (mi.codeIndex = mj.codeIndex ↔ oi.ext.codePtr = oj.ext.codePtr) ∧
      (mi.dataIndex = mj.dataIndex ↔ oi.ext.dataPtr = oj.ext.dataPtr)) ∧
    (∀ (i : Nat) (o : OnOpCall) (m : MachineState), ops[i]? = some o →
      (runTrace ops).machineStates[i]? = some m →
      m.codeIndex < (runTrace ops).codes.length ∧
      m.dataIndex < (runTrace ops).data.length ∧
      (∃ o0, ops.find? (fun x => decide (x.ext.codePtr = o.ext.codePtr)) = some o0 ∧
        (runTrace ops).codes[m.codeIndex]? = some ⟨o0.ext.myAddress, o0.ext.code⟩) ∧
      (∃ o0, ops.find? (fun x => decide (x.ext.dataPtr = o.ext.dataPtr)) = some o0 ∧
        (runTrace ops).data[m.dataIndex]? = some o0.ext.data)) ∧
    (∀ more : List OnOpCall, ∃ cs ds,
      (runTrace (ops ++ more)).codes = (runTrace ops).codes ++ cs ∧
      (runTrace (ops ++ more)).data = (runTrace ops).data ++ ds) := by
  have hc := DedupTable.Inv.identity _ _ _ (runTrace_codeTable_inv ops)
  have hd := DedupTable.Inv.identity _ _ _ (runTrace_dataTable_inv ops)
  have key : ∀ (i : Nat) (o : OnOpCall) (m : MachineState), ops[i]? = some o →
      (runTrace ops).machineStates[i]? = some m →
      (ops.map codeKey)[i]? = some (codeKey o) ∧ (ops.map dataKey)[i]? = some (dataKey o) ∧
      ((runTrace ops).machineStates.map (fun m => m.codeIndex))[i]? = some m.codeIndex ∧
      ((runTrace ops).machineStates.map (fun m => m.dataIndex))[i]? = some m.dataIndex := by
    intro i o m ho hm
    simp [List.getElem?_map, ho, hm]
  refine ⟨runTrace_length ops, ?_, ?_, runTrace_tables_grow ops⟩
  · intro i j oi oj mi mj hoi hoj hmi hmj
    obtain ⟨a1, a2, a3, a4⟩ := key i oi mi hoi hmi
    obtain ⟨b1, b2, b3, b4⟩ := key j oj mj hoj hmj
    exact ⟨hc.1 i j _ _ _ _ a1 b1 a3 b3, hd.1 i j _ _ _ _ a2 b2 a4 b4⟩
  · intro i o m ho hm
    obtain ⟨a1, a2, a3, a4⟩ := key i o m ho hm
    obtain ⟨hcb, e0, hce, hci⟩ := hc.2 i _ _ a1 a3
    obtain ⟨hdb, f0, hde, hdi⟩ := hd.2 i _ _ a2 a4
    refine ⟨hcb, hdb, ?_, ?_⟩
    · rw [List.find?_map] at hce
      cases hf : ops.find? ((fun x => decide (x.1 = (codeKey o).1)) ∘ codeKey) with
      | none => rw [hf] at hce; cases hce
      | some o0 =>
        rw [hf] at hce
        cases hce
        exact ⟨o0, hf, hci⟩
    · rw [List.find?_map] at hde
      cases hf : ops.find? ((fun x => decide (x.1 = (dataKey o).1)) ∘ dataKey) with
      | none => rw [hf] at hde; cases hde
      | some o0 =>
        rw [hf] at hde
        cases hde
        exact ⟨o0, hf, hdi⟩

/-- On the four sample steps the outer frame and the called frame get the table positions
0 and 1, and the last step returns to position 0. -/
theorem dedup_identity_witness :
    (runTrace sampleOps).machineStates.length = sampleOps.length ∧
    (runTrace sampleOps).machineStates.map (fun m => (m.codeIndex, m.dataIndex)) =
      [(0, 0), (1, 1), (1, 1), (0, 0)] ∧
    (runTrace sampleOps).codes = [⟨11, [96, 241]⟩, ⟨12, [96, 0]⟩] :=
  ⟨(dedup_identity sampleOps).1, by decide, by decide⟩

end Mix
